import Mathlib

/-!
# mutrait: trait engine, verified against `dist/main/index.js`

A shallow embedding of the mutrait trait-application engine. The library
operates on JavaScript objects: class/constructor functions, their
`prototype` objects, instances, and plain functions decorated by `wrap`.
Everything observable to the engine is identity of objects, own properties
under three private symbols (`_appliedTrait`, `_wrappedTrait`,
`_cachedApplications`) plus `Symbol.hasInstance` and the `prototype`
property, and the prototype chain.  We therefore model a heap of objects
addressed by `Nat`; values are `undefined`, `null`, booleans and object
references.  Functions are heap objects carrying a body; the bodies that
occur are exactly the closures the library itself creates (the `Cached`,
`Dedupe`, `BareTrait` and `HasInstance` wrappers), raw user trait functions
`s => class extends s { ... }` (modelled as allocating a fresh subclass),
user trait bodies that throw, constant functions (standing for pre-existing
`Symbol.hasInstance` behaviour), and the built-in
`Function.prototype[Symbol.hasInstance]`.

Interpretation is fuel-indexed; running out of fuel is a distinguished
error `JsErr.outOfFuel` that no theorem ever accepts as a result, and a
thrown user error or `TypeError` propagates exactly as the engine's
exceptions do, together with the heap mutations already performed.
-/

namespace Mutrait

/-- Run-time values: `undefined`, `null`, booleans and object references. -/
inductive Val where
  | undef
  | nullV
  | bool (b : Bool)
  | addr (a : Nat)
deriving DecidableEq, Repr

/-- The property keys the engine reads or writes: the three private symbols
of `index.js`, `Symbol.hasInstance`, and the `prototype` property of
constructor functions. -/
inductive Key where
  | appliedTrait
  | wrappedTrait
  | cachedApplications
  | hasInstanceSym
  | prototypeKey
deriving DecidableEq, Repr

/-- Function bodies that occur in the engine: raw user traits (returning a
fresh subclass of the argument, as `s => class extends s {}` does), user
traits that throw, class constructors (default empty constructor), the
built-in `Function.prototype[Symbol.hasInstance]` as invoked by the engine
(a plain call, so its `this` is `undefined` and it returns `false`),
constant functions, and the four closure shapes the library builds. -/
inductive FnBody where
  | userTrait (tag : Nat)
  | throwingTrait (tag : Nat)
  | classCons
  | builtinHasInstance
  | constFn (r : Val)
  | cachedBody (t : Nat)
  | dedupeBody (t : Nat)
  | bareBody (t : Nat)
  | hasInstanceClosure (prior : Val) (t : Nat)
deriving DecidableEq, Repr

/-- A heap object: its `[[Prototype]]`, its own properties, an optional
function body (present iff it is callable), and `Map` entries (used when
the object is one of the `new Map()` caches `Cached` creates; keys are the
trait-function addresses the source keys its `Map` by). -/
structure Obj where
  proto : Val := .nullV
  props : List (Key × Val) := []
  body : Option FnBody := none
  entries : List (Nat × Val) := []
deriving DecidableEq, Repr

/-- The heap, with a trace recording the tags of user trait bodies invoked
so far (observing how often the engine runs a user trait function). -/
structure Heap where
  objs : List Obj
  trace : List Nat := []
deriving DecidableEq, Repr

/-- Errors: `TypeError` (property access on `null`/`undefined` and kin), a
user exception thrown by a trait body, and fuel exhaustion (an artefact of
the model, never accepted by a theorem). -/
inductive JsErr where
  | typeError
  | userThrow (tag : Nat)
  | outOfFuel
deriving DecidableEq, Repr

deriving instance DecidableEq for Except

/-- JavaScript truthiness on the modelled values: objects are truthy. -/
def truthy : Val → Bool
  | .undef => false
  | .nullV => false
  | .bool b => b
  | .addr _ => true

theorem truthy_undef : truthy .undef = false := rfl

theorem truthy_nullV : truthy .nullV = false := rfl

theorem truthy_addr (a : Nat) : truthy (.addr a) = true := rfl

theorem truthy_bool (b : Bool) : truthy (.bool b) = b := rfl

def Heap.objAt (h : Heap) (a : Nat) : Option Obj := h.objs[a]?

def Heap.bodyAt (h : Heap) (a : Nat) : Option FnBody := (h.objAt a).bind (·.body)

/-- Own-property lookup in a property list. -/
def findProp : List (Key × Val) → Key → Option Val
  | [], _ => none
  | (k', v) :: rest, k => if k' = k then some v else findProp rest k

/-- Set (replace or append) a property in a property list. -/
def propSet : List (Key × Val) → Key → Val → List (Key × Val)
  | [], k, v => [(k, v)]
  | (k', v') :: rest, k, v =>
    if k' = k then (k, v) :: rest else (k', v') :: propSet rest k v

/-- Own property of the object at `a` (`Object.prototype.hasOwnProperty`
plus the read, combined). -/
def getOwn (h : Heap) (a : Nat) (k : Key) : Option Val :=
  match h.objAt a with
  | some o => findProp o.props k
  | none => none

/-- Allocate a fresh object, returning its address. -/
def allocObj (h : Heap) (o : Obj) : Heap × Nat :=
  ({ h with objs := h.objs ++ [o] }, h.objs.length)

/-- Write an own property of the object at `a`. -/
def setProp (h : Heap) (a : Nat) (k : Key) (v : Val) : Heap :=
  match h.objAt a with
  | some o => { h with objs := h.objs.set a { o with props := propSet o.props k v } }
  | none => h

/-- `Object.setPrototypeOf`. -/
def setProto (h : Heap) (a : Nat) (p : Val) : Heap :=
  match h.objAt a with
  | some o => { h with objs := h.objs.set a { o with proto := p } }
  | none => h

/-- Property read `v[k]` with prototype-chain walk (`[[Get]]`).  Reading a
property of `null`/`undefined` throws `TypeError`; boxed primitives never
carry any of the modelled keys, hence yield `undefined`.  The fuel bounds
the chain length walked. -/
def getProp (h : Heap) : Val → Key → Nat → Except JsErr Val
  | .undef, _, _ => .error .typeError
  | .nullV, _, _ => .error .typeError
  | .bool _, _, _ => .ok .undef
  | .addr _, _, 0 => .error .outOfFuel
  | .addr a, k, fuel + 1 =>
    match h.objAt a with
    | none => .error .typeError
    | some o =>
      match findProp o.props k with
      | some v => .ok v
      | none =>
        match o.proto with
        | .addr p => getProp h (.addr p) k fuel
        | _ => (.ok .undef)

/-- `Object.getPrototypeOf`, totalised: the chain ends `null`/`undefined`
absorb, and boxed primitives' built-in prototype chains, which never carry
trait markers, are collapsed to the chain end. -/
def protoOfV (h : Heap) : Val → Val
  | .addr a =>
    match h.objAt a with
    | some o => o.proto
    | none => .nullV
  | .bool _ => .nullV
  | v => v

/-- `const unwrap = wrapper => wrapper[_wrappedTrait] || wrapper`. -/
def unwrap (h : Heap) (wrapper : Val) (fuel : Nat) : Except JsErr Val :=
  match getProp h wrapper .wrappedTrait fuel with
  | .error e => .error e
  | .ok w => .ok (if truthy w then w else wrapper)

/-- `isTraitificationOf = (proto, trait) =>
  Object.prototype.hasOwnProperty.call(proto, _appliedTrait) &&
  proto[_appliedTrait] === unwrap(trait)`.
The `&&` short-circuits, so `unwrap` only runs when the own property is
present.  `hasOwnProperty.call` on `null`/`undefined` throws; on a boxed
primitive it is `false`. -/
def isTraitificationOf (h : Heap) (proto trait : Val) (fuel : Nat) : Except JsErr Bool :=
  match proto with
  | .undef => .error .typeError
  | .nullV => .error .typeError
  | .bool _ => .ok false
  | .addr a =>
    match getOwn h a .appliedTrait with
    | none => .ok false
    | some x =>
      match unwrap h trait fuel with
      | .error e => .error e
      | .ok u => .ok (decide (x = u))

/-- `expresses`: walk the prototype chain from `it` (while `it != null`,
which is false for both `null` and `undefined`), succeeding as soon as
`isTraitificationOf` does. -/
def expresses (h : Heap) (it trait : Val) : Nat → Except JsErr Bool
  | 0 => .error .outOfFuel
  | fuel + 1 =>
    match it with
    | .undef => .ok false
    | .nullV => .ok false
    | v =>
      match isTraitificationOf h v trait fuel with
      | .error e => .error e
      | .ok true => .ok true
      | .ok false => expresses h (protoOfV h v) trait fuel

/-- `wrap(trait, wrapper)`: set the wrapper's prototype to the trait
(`Object.setPrototypeOf(wrapper, trait)` happens first); set the
back-reference `trait[_wrappedTrait] = trait` only if
`trait[_wrappedTrait]` is not already truthy; return the wrapper. -/
def wrap (h : Heap) (t w : Nat) (fuel : Nat) : Heap × Except JsErr Val :=
  match getProp (setProto h w (.addr t)) (.addr t) .wrappedTrait fuel with
  | .error e => (setProto h w (.addr t), .error e)
  | .ok x =>
    ((if truthy x then setProto h w (.addr t)
      else setProp (setProto h w (.addr t)) t .wrappedTrait (.addr t)), .ok (.addr w))

/-- The body of a raw user trait `s => class extends s { ... }`: read
`s.prototype`, which must be an object or `null`, and allocate a fresh
prototype object extending it plus a fresh class whose own `prototype` is
that object and whose `[[Prototype]]` is `s` itself. -/
def okProto : Val → Bool
  | .addr _ => true
  | .nullV => true
  | _ => false

def mkSubclassFrom (h : Heap) (s : Val) (fuel : Nat) : Heap × Except JsErr Val :=
  match s with
  | .addr b =>
    match getProp h (.addr b) .prototypeKey fuel with
    | .error e => (h, .error e)
    | .ok sp =>
      if okProto sp then
        let (h1, p) := allocObj h { proto := sp }
        let (h2, c) := allocObj h1
          { proto := .addr b, props := [(.prototypeKey, .addr p)], body := some .classCons }
        (h2, .ok (.addr c))
      else (h, .error .typeError)
  | _ => (h, .error .typeError)

/-- `Map.prototype.get`, keyed by function identity as the source's `Map`
is; `undefined` when absent. -/
def mapGet (h : Heap) (m : Nat) (k : Nat) : Val :=
  match h.objAt m with
  | some o =>
    match o.entries.find? (fun e => e.1 = k) with
    | some e => e.2
    | none => .undef
  | none => .undef

def entrySet : List (Nat × Val) → Nat → Val → List (Nat × Val)
  | [], k, v => [(k, v)]
  | (k', v') :: rest, k, v =>
    if k' = k then (k, v) :: rest else (k', v') :: entrySet rest k v

/-- `Map.prototype.set`. -/
def mapSet (h : Heap) (m : Nat) (k : Nat) (v : Val) : Heap :=
  match h.objAt m with
  | some o => { h with objs := h.objs.set m { o with entries := entrySet o.entries k v } }
  | none => h

/-- The closure body `Cached` builds:
`superclass => { let c = superclass[_cachedApplications]; if (!c) c =
superclass[_cachedApplications] = new Map(); let a = c.get(trait); if (!a)
{ a = trait(superclass); c.set(trait, a) } return a }`.
`call` is trait invocation at the enclosing fuel. -/
def cachedBodyRun (call : Heap → Val → Val → Heap × Except JsErr Val)
    (h : Heap) (t : Nat) (s : Val) (fuel : Nat) : Heap × Except JsErr Val :=
  match getProp h s .cachedApplications fuel with
  | .error e => (h, .error e)
  | .ok ca =>
    let hm : Heap × Option Nat :=
      if truthy ca then
        (h, match ca with | .addr m => some m | _ => none)
      else
        match s with
        | .addr b =>
          let (h1, m) := allocObj h { entries := [] }
          (setProp h1 b .cachedApplications (.addr m), some m)
        | _ => (h, none)
    match hm with
    | (h1, none) => (h1, .error .typeError)
    | (h1, some m) =>
      let app := mapGet h1 m t
      if truthy app then (h1, .ok app)
      else
        match call h1 (.addr t) s with
        | (h2, .error e) => (h2, .error e)
        | (h2, .ok app2) => (mapSet h2 m t app2, .ok app2)

/-- The closure body `Dedupe` builds:
`superclass => expresses(superclass.prototype, trait) ? superclass
: trait(superclass)`. -/
def dedupeBodyRun (call : Heap → Val → Val → Heap × Except JsErr Val)
    (h : Heap) (t : Nat) (s : Val) (fuel : Nat) : Heap × Except JsErr Val :=
  match getProp h s .prototypeKey fuel with
  | .error e => (h, .error e)
  | .ok p =>
    match expresses h p (.addr t) fuel with
    | .error e => (h, .error e)
    | .ok true => (h, .ok s)
    | .ok false => call h (.addr t) s

/-- `apply(superclass, trait)`: invoke the trait, then
`application.prototype[_appliedTrait] = unwrap(trait)` and return the
application.  The assignment reads `application.prototype` first, then
evaluates `unwrap(trait)`, and throws `TypeError` if the assignment target
base is not an object. -/
def applyRun (call : Heap → Val → Val → Heap × Except JsErr Val)
    (h : Heap) (s trait : Val) (fuel : Nat) : Heap × Except JsErr Val :=
  match call h trait s with
  | (h1, .error e) => (h1, .error e)
  | (h1, .ok application) =>
    match getProp h1 application .prototypeKey fuel with
    | .error e => (h1, .error e)
    | .ok pv =>
      match unwrap h1 trait fuel with
      | .error e => (h1, .error e)
      | .ok u =>
        match pv with
        | .addr pa => (setProp h1 pa .appliedTrait u, .ok application)
        | _ => (h1, .error .typeError)

/-- The closure body `HasInstance` installs:
`it => priorHasInstance(it) || expresses(it, trait)`; `||` returns the
prior result itself when truthy. -/
def hasInstanceBodyRun (call : Heap → Val → Val → Heap × Except JsErr Val)
    (h : Heap) (prior : Val) (t : Nat) (arg : Val) (fuel : Nat) : Heap × Except JsErr Val :=
  match call h prior arg with
  | (h1, .error e) => (h1, .error e)
  | (h1, .ok r) =>
    if truthy r then (h1, .ok r)
    else
      match expresses h1 arg (.addr t) fuel with
      | .ok b => (h1, .ok (.bool b))
      | .error e => (h1, .error e)

/-- Function invocation.  Dispatches on the callee's body; user trait
bodies are recorded in the trace on entry.  Calling a class without `new`,
a non-function, or a dangling reference throws `TypeError`.  The built-in
`Symbol.hasInstance` only ever occurs here invoked as a plain call
(`priorHasInstance(it)`), whose `this` is `undefined` and which therefore
returns `false`. -/
def callFn (h : Heap) (f : Val) (arg : Val) : Nat → Heap × Except JsErr Val
  | 0 => (h, .error .outOfFuel)
  | fuel + 1 =>
    match f with
    | .addr a =>
      match h.objAt a with
      | some o =>
        match o.body with
        | some (.userTrait tag) =>
          mkSubclassFrom { h with trace := h.trace ++ [tag] } arg fuel
        | some (.throwingTrait tag) =>
          ({ h with trace := h.trace ++ [tag] }, .error (.userThrow tag))
        | some .classCons => (h, .error .typeError)
        | some .builtinHasInstance => (h, .ok (.bool false))
        | some (.constFn r) => (h, .ok r)
        | some (.cachedBody t) =>
          cachedBodyRun (fun h' f' a' => callFn h' f' a' fuel) h t arg fuel
        | some (.dedupeBody t) =>
          dedupeBodyRun (fun h' f' a' => callFn h' f' a' fuel) h t arg fuel
        | some (.bareBody t) =>
          applyRun (fun h' f' a' => callFn h' f' a' fuel) h arg (.addr t) fuel
        | some (.hasInstanceClosure prior t) =>
          hasInstanceBodyRun (fun h' f' a' => callFn h' f' a' fuel) h prior t arg fuel
        | none => (h, .error .typeError)
      | none => (h, .error .typeError)
    | _ => (h, .error .typeError)

/-- Public `apply`. -/
def applyT (h : Heap) (s trait : Val) (fuel : Nat) : Heap × Except JsErr Val :=
  applyRun (fun h' f' a' => callFn h' f' a' fuel) h s trait fuel

/-- Allocate a fresh function object; its `[[Prototype]]` is
`Function.prototype`, modelled at address 1 of the initial heap. -/
def newFn (h : Heap) (b : FnBody) : Heap × Nat :=
  allocObj h { proto := .addr 1, body := some b }

/-- `Cached = trait => wrap(trait, superclass => { ... })`. -/
def Cached (h : Heap) (t : Nat) (fuel : Nat) : Heap × Except JsErr Val :=
  let (h1, w) := newFn h (.cachedBody t)
  wrap h1 t w fuel

/-- `Dedupe = trait => wrap(trait, superclass => ...)`. -/
def Dedupe (h : Heap) (t : Nat) (fuel : Nat) : Heap × Except JsErr Val :=
  let (h1, w) := newFn h (.dedupeBody t)
  wrap h1 t w fuel

/-- `BareTrait = trait => wrap(trait, superclass => apply(superclass, trait))`. -/
def BareTrait (h : Heap) (t : Nat) (fuel : Nat) : Heap × Except JsErr Val :=
  let (h1, w) := newFn h (.bareBody t)
  wrap h1 t w fuel

/-- `HasInstance(trait)`: capture `trait[Symbol.hasInstance]`, define an
own `Symbol.hasInstance` property on `trait` holding the combining
closure, and return `trait` itself. -/
def HasInstance (h : Heap) (t : Nat) (fuel : Nat) : Heap × Except JsErr Val :=
  match getProp h (.addr t) .hasInstanceSym fuel with
  | .error e => (h, .error e)
  | .ok prior =>
    let (h1, f) := newFn h (.hasInstanceClosure prior t)
    (setProp h1 t .hasInstanceSym (.addr f), .ok (.addr t))

/-- Sequencing helper for composing the decorators: pass the produced
function's address to the next decorator, propagating errors. -/
def andThen (p : Heap × Except JsErr Val) (k : Heap → Nat → Heap × Except JsErr Val) :
    Heap × Except JsErr Val :=
  match p with
  | (h, .ok (.addr a)) => k h a
  | (h, .ok _) => (h, .error .typeError)
  | (h, .error e) => (h, .error e)

/-- `Trait = trait => HasInstance(Dedupe(Cached(BareTrait(trait))))`. -/
def Trait (h : Heap) (t : Nat) (fuel : Nat) : Heap × Except JsErr Val :=
  andThen (BareTrait h t fuel) fun h1 wb =>
    andThen (Cached h1 wb fuel) fun h2 wc =>
      andThen (Dedupe h2 wc fuel) fun h3 wd => HasInstance h3 wd fuel

/-- `new c()` for a class with the default empty constructor: a fresh
instance whose `[[Prototype]]` is `c.prototype` (or the plain-object root
when that is not an object).  Arrow functions and other non-class bodies
are not constructible. -/
def construct (h : Heap) (c : Val) (fuel : Nat) : Heap × Except JsErr Val :=
  match c with
  | .addr a =>
    match h.bodyAt a with
    | some .classCons =>
      match getProp h (.addr a) .prototypeKey fuel with
      | .error e => (h, .error e)
      | .ok pv =>
        let (h1, i) := allocObj h { proto := match pv with | .addr p => .addr p | _ => .nullV }
        (h1, .ok (.addr i))
    | _ => (h, .error .typeError)
  | _ => (h, .error .typeError)

/-- `v instanceof c`: read `c[Symbol.hasInstance]`, call it on `v`, and
coerce to boolean.  In this model every function's prototype chain carries
the built-in `Symbol.hasInstance`, so the method is always an object for
function receivers; the fallback is unreachable and maps to `TypeError`. -/
def instOf (h : Heap) (v c : Val) (fuel : Nat) : Heap × Except JsErr Val :=
  match getProp h c .hasInstanceSym fuel with
  | .error e => (h, .error e)
  | .ok m =>
    match m with
    | .addr _ =>
      match callFn h m v fuel with
      | (h1, .ok r) => (h1, .ok (.bool (truthy r)))
      | e => e
    | _ => (h, .error .typeError)

/-- `class {}` (the builder's default root): a fresh constructor whose
prototype object is fresh and empty.  The chain beyond it
(`Object.prototype`, which never carries engine markers) is modelled as
the chain end. -/
def newRootClass (h : Heap) : Heap × Nat :=
  let (h1, p) := allocObj h { proto := .nullV }
  let (h2, c) := allocObj h1
    { proto := .addr 1, props := [(.prototypeKey, .addr p)], body := some .classCons }
  (h2, c)

/-- The builder: `constructor(superclass) { this.superclass = superclass || class {} }`. -/
structure TraitBuilder where
  superclass : Val
deriving DecidableEq, Repr

def superclassB (h : Heap) (s : Val) : Heap × TraitBuilder :=
  if truthy s then (h, ⟨s⟩)
  else
    let (h1, c) := newRootClass h
    (h1, ⟨.addr c⟩)

/-- `expressing(...traits) { return traits.reduce((it, t) => t(it), this.superclass) }`:
a left fold applying each trait to the result of the previous one. -/
def TraitBuilder.expressing (h : Heap) (b : TraitBuilder) (ts : List Val) (fuel : Nat) :
    Heap × Except JsErr Val :=
  go h b.superclass ts
where
  go (h : Heap) (acc : Val) : List Val → Heap × Except JsErr Val
    | [] => (h, .ok acc)
    | t :: rest =>
      match callFn h t acc fuel with
      | (h1, .error e) => (h1, .error e)
      | (h1, .ok r) => go h1 r rest

/-- `traits = (...ts) => superclass().expressing(...ts)`. -/
def traits (h : Heap) (ts : List Val) (fuel : Nat) : Heap × Except JsErr Val :=
  let (h1, b) := superclassB h .undef
  TraitBuilder.expressing h1 b ts fuel

/-- The initial heap: the built-in `Symbol.hasInstance` function at
address 0 and `Function.prototype` (carrying it) at address 1. -/
def initHeap : Heap :=
  { objs :=
      [ { proto := .addr 1, body := some .builtinHasInstance },
        { props := [(.hasInstanceSym, .addr 0)] } ] }

/-! ## Heap-operation lemmas -/

theorem objAt_withTrace (h : Heap) (tr : List Nat) (a : Nat) :
    ({ h with trace := tr } : Heap).objAt a = h.objAt a := rfl

theorem objAt_valid {h : Heap} {a : Nat} {o : Obj} (ha : h.objAt a = some o) :
    a < h.objs.length := by
  by_contra hlt
  rw [Heap.objAt, List.getElem?_eq_none (Nat.le_of_not_lt hlt)] at ha
  exact Option.noConfusion ha

theorem objAt_alloc_old {h : Heap} {a : Nat} (ha : a < h.objs.length) (o : Obj) :
    (allocObj h o).1.objAt a = h.objAt a := by
  show (h.objs ++ [o])[a]? = _
  rw [List.getElem?_append_left ha]
  rfl

theorem objAt_alloc_new (h : Heap) (o : Obj) :
    (allocObj h o).1.objAt h.objs.length = some o := by
  show (h.objs ++ [o])[h.objs.length]? = some o
  exact List.getElem?_concat_length h.objs o

theorem alloc_addr (h : Heap) (o : Obj) : (allocObj h o).2 = h.objs.length := rfl

theorem alloc_length (h : Heap) (o : Obj) :
    (allocObj h o).1.objs.length = h.objs.length + 1 := by
  show (h.objs ++ [o]).length = _
  simp

theorem alloc_trace (h : Heap) (o : Obj) : (allocObj h o).1.trace = h.trace := rfl

theorem objAt_setProp_self {h : Heap} {a : Nat} {o : Obj} (ha : h.objAt a = some o)
    (k : Key) (v : Val) :
    (setProp h a k v).objAt a = some { o with props := propSet o.props k v } := by
  have ha' : h.objs[a]? = some o := ha
  rw [setProp, ha]
  show (h.objs.set a _)[a]? = _
  rw [List.getElem?_set_self', ha']
  rfl

theorem objAt_setProp_ne (h : Heap) (a : Nat) (k : Key) (v : Val) {b : Nat} (hab : a ≠ b) :
    (setProp h a k v).objAt b = h.objAt b := by
  rw [setProp]
  match hcase : h.objAt a with
  | none => rfl
  | some o =>
    show (h.objs.set a _)[b]? = _
    rw [List.getElem?_set_ne hab]
    rfl

theorem setProp_length (h : Heap) (a : Nat) (k : Key) (v : Val) :
    (setProp h a k v).objs.length = h.objs.length := by
  rw [setProp]
  match hcase : h.objAt a with
  | none => rfl
  | some o => simp

theorem setProp_trace (h : Heap) (a : Nat) (k : Key) (v : Val) :
    (setProp h a k v).trace = h.trace := by
  rw [setProp]
  match hcase : h.objAt a with
  | none => rfl
  | some o => rfl

theorem objAt_setProto_self {h : Heap} {a : Nat} {o : Obj} (ha : h.objAt a = some o)
    (p : Val) :
    (setProto h a p).objAt a = some { o with proto := p } := by
  have ha' : h.objs[a]? = some o := ha
  rw [setProto, ha]
  show (h.objs.set a _)[a]? = _
  rw [List.getElem?_set_self', ha']
  rfl

theorem objAt_setProto_ne (h : Heap) (a : Nat) (p : Val) {b : Nat} (hab : a ≠ b) :
    (setProto h a p).objAt b = h.objAt b := by
  rw [setProto]
  match hcase : h.objAt a with
  | none => rfl
  | some o =>
    show (h.objs.set a _)[b]? = _
    rw [List.getElem?_set_ne hab]
    rfl

theorem setProto_length (h : Heap) (a : Nat) (p : Val) :
    (setProto h a p).objs.length = h.objs.length := by
  rw [setProto]
  match hcase : h.objAt a with
  | none => rfl
  | some o => simp

theorem objAt_mapSet_self {h : Heap} {m : Nat} {o : Obj} (hm : h.objAt m = some o)
    (k : Nat) (v : Val) :
    (mapSet h m k v).objAt m = some { o with entries := entrySet o.entries k v } := by
  have hm' : h.objs[m]? = some o := hm
  rw [mapSet, hm]
  show (h.objs.set m _)[m]? = _
  rw [List.getElem?_set_self', hm']
  rfl

theorem objAt_mapSet_ne (h : Heap) (m : Nat) (k : Nat) (v : Val) {b : Nat} (hmb : m ≠ b) :
    (mapSet h m k v).objAt b = h.objAt b := by
  rw [mapSet]
  match hcase : h.objAt m with
  | none => rfl
  | some o =>
    show (h.objs.set m _)[b]? = _
    rw [List.getElem?_set_ne hmb]
    rfl

theorem mapSet_trace (h : Heap) (m : Nat) (k : Nat) (v : Val) :
    (mapSet h m k v).trace = h.trace := by
  rw [mapSet]
  match hcase : h.objAt m with
  | none => rfl
  | some o => rfl

theorem findProp_propSet_self (l : List (Key × Val)) (k : Key) (v : Val) :
    findProp (propSet l k v) k = some v := by
  induction l with
  | nil => simp [propSet, findProp]
  | cons hd tl ih =>
    obtain ⟨k1, v1⟩ := hd
    by_cases hk : k1 = k
    · simp [propSet, hk, findProp]
    · simp [propSet, hk, findProp, ih]

theorem findProp_propSet_ne (l : List (Key × Val)) {k k' : Key} (hne : k ≠ k') (v : Val) :
    findProp (propSet l k v) k' = findProp l k' := by
  induction l with
  | nil => simp [propSet, findProp, hne]
  | cons hd tl ih =>
    obtain ⟨k1, v1⟩ := hd
    by_cases hk : k1 = k
    · have hk1 : k1 ≠ k' := hk ▸ hne
      simp only [propSet, if_pos hk, findProp, if_neg hne, if_neg hk1]
    · simp only [propSet, if_neg hk, findProp]
      by_cases hk' : k1 = k'
      · simp [hk']
      · simp [hk', ih]

theorem mapGet_mapSet_self {h : Heap} {m : Nat} {o : Obj} (hm : h.objAt m = some o)
    (k : Nat) (v : Val) : mapGet (mapSet h m k v) m k = v := by
  rw [mapGet, objAt_mapSet_self hm]
  show (match entrySet o.entries k v |>.find? (fun e => e.1 = k) with
    | some e => e.2 | none => Val.undef) = v
  have : ∀ l : List (Nat × Val), (entrySet l k v).find? (fun e => e.1 = k) = some (k, v) := by
    intro l
    induction l with
    | nil => simp [entrySet, List.find?]
    | cons hd tl ih =>
      obtain ⟨k1, v1⟩ := hd
      by_cases hk : k1 = k
      · simp [entrySet, hk, List.find?]
      · simp [entrySet, hk, List.find?, ih]
  rw [this]

/-- Heap agreement: `h'` keeps every object `h` has (fresh allocations and
mutations of fresh addresses preserve it).  Every address a successful
`getProp` walk touches is live, so such walks transport along it. -/
def Agrees (h h' : Heap) : Prop :=
  ∀ a o, h.objAt a = some o → h'.objAt a = some o

theorem Agrees.refl (h : Heap) : Agrees h h := fun _ _ ha => ha

theorem Agrees.trans {h1 h2 h3 : Heap} (h12 : Agrees h1 h2) (h23 : Agrees h2 h3) :
    Agrees h1 h3 := fun a o ha => h23 a o (h12 a o ha)

theorem agrees_alloc (h : Heap) (o : Obj) : Agrees h (allocObj h o).1 := by
  intro a o' ha
  rw [objAt_alloc_old (objAt_valid ha)]
  exact ha

theorem agrees_withTrace (h : Heap) (tr : List Nat) :
    Agrees h { h with trace := tr } := fun _ _ ha => ha

theorem agrees_setProp_fresh {h0 h : Heap} (hag : Agrees h0 h) {a : Nat}
    (ha : h0.objs.length ≤ a) (k : Key) (v : Val) : Agrees h0 (setProp h a k v) := by
  intro b o hb
  rw [objAt_setProp_ne h a k v (by exact fun hba => absurd (hba ▸ objAt_valid hb) (Nat.not_lt.2 ha))]
  exact hag b o hb

theorem agrees_setProto_fresh {h0 h : Heap} (hag : Agrees h0 h) {a : Nat}
    (ha : h0.objs.length ≤ a) (p : Val) : Agrees h0 (setProto h a p) := by
  intro b o hb
  rw [objAt_setProto_ne h a p (by exact fun hba => absurd (hba ▸ objAt_valid hb) (Nat.not_lt.2 ha))]
  exact hag b o hb

theorem agrees_mapSet_fresh {h0 h : Heap} (hag : Agrees h0 h) {m : Nat}
    (hm : h0.objs.length ≤ m) (k : Nat) (v : Val) : Agrees h0 (mapSet h m k v) := by
  intro b o hb
  rw [objAt_mapSet_ne h m k v (by exact fun hmb => absurd (hmb ▸ objAt_valid hb) (Nat.not_lt.2 hm))]
  exact hag b o hb

/-! ## Unfolding equations -/

theorem getProp_addr (h : Heap) (a : Nat) (k : Key) (n : Nat) :
    getProp h (.addr a) k (n + 1) =
      (match h.objAt a with
       | none => .error .typeError
       | some o =>
         match findProp o.props k with
         | some v => .ok v
         | none =>
           match o.proto with
           | .addr p => getProp h (.addr p) k n
           | _ => .ok .undef) := rfl

theorem expresses_bool (h : Heap) (bb : Bool) (t : Val) (n : Nat) :
    expresses h (.bool bb) t (n + 1) =
      (match isTraitificationOf h (.bool bb) t n with
       | .error e => .error e
       | .ok true => .ok true
       | .ok false => expresses h (protoOfV h (.bool bb)) t n) := rfl

theorem expresses_addr (h : Heap) (a : Nat) (t : Val) (n : Nat) :
    expresses h (.addr a) t (n + 1) =
      (match isTraitificationOf h (.addr a) t n with
       | .error e => .error e
       | .ok true => .ok true
       | .ok false => expresses h (protoOfV h (.addr a)) t n) := rfl

/-! ## Transport and monotonicity for reads -/

theorem getProp_agrees {h h' : Heap} (hag : Agrees h h') :
    ∀ {n : Nat} {v : Val} {k : Key} {x : Val},
      getProp h v k n = .ok x → getProp h' v k n = .ok x := by
  intro n
  induction n with
  | zero =>
    intro v k x hx
    match v with
    | .undef | .nullV => exact absurd hx (by simp [getProp])
    | .bool b => exact hx
    | .addr a => exact absurd hx (by simp [getProp])
  | succ n ih =>
    intro v k x hx
    match v with
    | .undef | .nullV => exact absurd hx (by simp [getProp])
    | .bool b => exact hx
    | .addr a =>
      match ho : h.objAt a with
      | none => simp [getProp_addr, ho] at hx
      | some o =>
        simp only [getProp_addr, ho] at hx
        simp only [getProp_addr, hag a o ho]
        match hf : findProp o.props k with
        | some v' => simp only [hf] at hx ⊢; exact hx
        | none =>
          simp only [hf] at hx ⊢
          match hp : o.proto with
          | .addr p => simp only [hp] at hx ⊢; exact ih hx
          | .undef | .nullV | .bool _ => simp only [hp] at hx ⊢; exact hx

theorem getProp_mono {h : Heap} :
    ∀ {n : Nat} {v : Val} {k : Key} {x : Val} {m : Nat},
      getProp h v k n = .ok x → n ≤ m → getProp h v k m = .ok x := by
  intro n
  induction n with
  | zero =>
    intro v k x m hx _
    match v with
    | .undef | .nullV => exact absurd hx (by simp [getProp])
    | .bool b =>
      match m with
      | 0 => exact hx
      | m + 1 => exact hx
    | .addr a => exact absurd hx (by simp [getProp])
  | succ n ih =>
    intro v k x m hx hnm
    match v with
    | .undef | .nullV => exact absurd hx (by simp [getProp])
    | .bool b =>
      match m with
      | 0 => exact absurd hnm (by simp)
      | m + 1 => exact hx
    | .addr a =>
      match m with
      | 0 => exact absurd hnm (by simp)
      | m + 1 =>
        match ho : h.objAt a with
        | none => simp [getProp_addr, ho] at hx
        | some o =>
          simp only [getProp_addr, ho] at hx ⊢
          match hf : findProp o.props k with
          | some v' => simp only [hf] at hx ⊢; exact hx
          | none =>
            simp only [hf] at hx ⊢
            match hp : o.proto with
            | .addr p =>
              simp only [hp] at hx ⊢
              exact ih hx (Nat.le_of_succ_le_succ hnm)
            | .undef | .nullV | .bool _ => simp only [hp] at hx ⊢; exact hx

theorem getProp_own {h : Heap} {a : Nat} {o : Obj} (ha : h.objAt a = some o)
    {k : Key} {v : Val} (hv : findProp o.props k = some v) (n : Nat) :
    getProp h (.addr a) k (n + 1) = .ok v := by
  simp only [getProp_addr, ha, hv]

theorem getProp_step {h : Heap} {a : Nat} {o : Obj} (ha : h.objAt a = some o)
    {k : Key} (hk : findProp o.props k = none) {p : Nat} (hp : o.proto = .addr p) (n : Nat) :
    getProp h (.addr a) k (n + 1) = getProp h (.addr p) k n := by
  simp only [getProp_addr, ha, hk, hp]

theorem getProp_chain_end {h : Heap} {a : Nat} {o : Obj} (ha : h.objAt a = some o)
    {k : Key} (hk : findProp o.props k = none) (hp : o.proto = .nullV) (n : Nat) :
    getProp h (.addr a) k (n + 1) = .ok .undef := by
  simp only [getProp_addr, ha, hk, hp]

theorem unwrap_agrees {h h' : Heap} (hag : Agrees h h') {v u : Val} {n : Nat}
    (hu : unwrap h v n = .ok u) : unwrap h' v n = .ok u := by
  rw [unwrap] at hu ⊢
  match hx : getProp h v .wrappedTrait n with
  | .error e => rw [hx] at hu; exact absurd hu (by simp)
  | .ok x =>
    rw [hx] at hu
    rw [getProp_agrees hag hx]
    exact hu

theorem unwrap_mono {h : Heap} {v u : Val} {n m : Nat}
    (hu : unwrap h v n = .ok u) (hnm : n ≤ m) : unwrap h v m = .ok u := by
  rw [unwrap] at hu ⊢
  match hx : getProp h v .wrappedTrait n with
  | .error e => rw [hx] at hu; exact absurd hu (by simp)
  | .ok x =>
    rw [hx] at hu
    rw [getProp_mono hx hnm]
    exact hu

theorem isTraitificationOf_addr (h : Heap) (a : Nat) (t : Val) (n : Nat) :
    isTraitificationOf h (.addr a) t n =
      (match getOwn h a .appliedTrait with
       | none => .ok false
       | some x =>
         match unwrap h t n with
         | .error e => .error e
         | .ok u => .ok (decide (x = u))) := rfl

theorem isTraitificationOf_mono {h : Heap} {v t : Val} {b : Bool} {n m : Nat}
    (hi : isTraitificationOf h v t n = .ok b) (hnm : n ≤ m) :
    isTraitificationOf h v t m = .ok b := by
  match v with
  | .undef | .nullV => exact absurd hi (by simp [isTraitificationOf])
  | .bool bb => exact hi
  | .addr a =>
    rw [isTraitificationOf_addr] at hi ⊢
    revert hi
    match hown : getOwn h a .appliedTrait with
    | none => intro hi; exact hi
    | some x =>
      intro hi
      have hi' : (match unwrap h t n with
          | Except.error e => (Except.error e : Except JsErr Bool)
          | Except.ok u => Except.ok (decide (x = u))) = Except.ok b := hi
      show (match unwrap h t m with
          | Except.error e => (Except.error e : Except JsErr Bool)
          | Except.ok u => Except.ok (decide (x = u))) = Except.ok b
      revert hi'
      match hu : unwrap h t n with
      | .error e => intro hi'; exact absurd hi' (by simp)
      | .ok u =>
        intro hi'
        rw [unwrap_mono hu hnm]
        exact hi'

/-- A `getProp` walk for key `k` only reads, at each live address, the
`k`-entry of the property list and the prototype; any heap evolution
preserving those (and keeping every live object live) preserves the walk. -/
theorem getProp_keyframe {h h' : Heap}
    (hag : ∀ a o, h.objAt a = some o →
      ∃ o', h'.objAt a = some o' ∧ o'.proto = o.proto) :
    ∀ {n : Nat} {v : Val} {k : Key} {x : Val},
      (∀ a o o', h.objAt a = some o → h'.objAt a = some o' →
        findProp o'.props k = findProp o.props k) →
      getProp h v k n = .ok x → getProp h' v k n = .ok x := by
  intro n
  induction n with
  | zero =>
    intro v k x _ hx
    match v with
    | .undef | .nullV => exact absurd hx (by simp [getProp])
    | .bool b => exact hx
    | .addr a => exact absurd hx (by simp [getProp])
  | succ n ih =>
    intro v k x hkeys hx
    match v with
    | .undef | .nullV => exact absurd hx (by simp [getProp])
    | .bool b => exact hx
    | .addr a =>
      match ho : h.objAt a with
      | none => simp [getProp_addr, ho] at hx
      | some o =>
        obtain ⟨o', ho', hproto⟩ := hag a o ho
        simp only [getProp_addr, ho] at hx
        simp only [getProp_addr, ho']
        rw [hkeys a o o' ho ho']
        match hf : findProp o.props k with
        | some v' => simp only [hf] at hx ⊢; exact hx
        | none =>
          simp only [hf] at hx ⊢
          rw [hproto]
          match hp : o.proto with
          | .addr p => simp only [hp] at hx ⊢; exact ih hkeys hx
          | .undef | .nullV | .bool _ => simp only [hp] at hx ⊢; exact hx

theorem expresses_mono {h : Heap} :
    ∀ {n : Nat} {it t : Val} {b : Bool} {m : Nat},
      expresses h it t n = .ok b → n ≤ m → expresses h it t m = .ok b := by
  intro n
  induction n with
  | zero => intro it t b m he _; exact absurd he (by simp [expresses])
  | succ n ih =>
    intro it t b m he hnm
    match m with
    | 0 => exact absurd hnm (by simp)
    | m + 1 =>
      have hnm' : n ≤ m := Nat.le_of_succ_le_succ hnm
      match it with
      | .undef => exact he
      | .nullV => exact he
      | .bool bb =>
        have he' : expresses h (protoOfV h (.bool bb)) t n = .ok b := he
        show expresses h (protoOfV h (.bool bb)) t m = .ok b
        exact ih he' hnm'
      | .addr a =>
        rw [expresses_addr] at he ⊢
        revert he
        match hi : isTraitificationOf h (.addr a) t n with
        | .error e => intro he; exact absurd he (by simp)
        | .ok true =>
          intro he
          rw [isTraitificationOf_mono hi hnm']
          exact he
        | .ok false =>
          intro he
          rw [isTraitificationOf_mono hi hnm']
          exact ih he hnm'

/-! ## Demonstration heap for the witnesses

A raw user trait function (tag 7) at address 2 on top of the initial heap,
and a root base class: prototype object at address 3, constructor at 4. -/

def demoHeap : Heap := (newRootClass (newFn initHeap (.userTrait 7)).1).1

/-- `apply(base, T)` applied once on `demoHeap`: marked prototype object at
address 5, derived class at 6. -/
def demoApplied : Heap := (applyT demoHeap (.addr 4) (.addr 2) 10).1

/-- A `Dedupe` wrapper (address 7) around the raw trait, on `demoApplied`. -/
def demoDeduped : Heap := (Dedupe demoApplied 2 10).1

/-! ## Claim C6 -/

/-- C6: Dedupe is idempotent.  For any function produced by `Dedupe` around
trait `t`, invoking it on a base class whose behaviour-surface (prototype)
chain already contains an application of `t` returns that base unchanged —
the same object, with the heap (hence also the invocation trace) untouched,
so `t` is not invoked at all.  Otherwise the call delegates to `t(base)`
and returns exactly that result. -/
theorem claim6_dedupe_idempotent :
    (∀ (h : Heap) (wd t b : Nat) (od : Obj) (n m : Nat) (pv : Val),
      h.objAt wd = some od → od.body = some (.dedupeBody t) →
      getProp h (.addr b) .prototypeKey n = .ok pv →
      expresses h pv (.addr t) m = .ok true →
      callFn h (.addr wd) (.addr b) (n + m + 1) = (h, .ok (.addr b)))
    ∧
    (∀ (h : Heap) (wd t b : Nat) (od : Obj) (n m : Nat) (pv : Val),
      h.objAt wd = some od → od.body = some (.dedupeBody t) →
      getProp h (.addr b) .prototypeKey n = .ok pv →
      expresses h pv (.addr t) m = .ok false →
      callFn h (.addr wd) (.addr b) (n + m + 1) = callFn h (.addr t) (.addr b) (n + m)) := by
  constructor
  · intro h wd t b od n m pv ho hb hp he
    show callFn h (.addr wd) (.addr b) ((n + m) + 1) = _
    simp only [callFn, ho, hb, dedupeBodyRun,
      getProp_mono hp (Nat.le_add_right n m), expresses_mono he (Nat.le_add_left m n)]
  · intro h wd t b od n m pv ho hb hp he
    show callFn h (.addr wd) (.addr b) ((n + m) + 1) = _
    simp only [callFn, ho, hb, dedupeBodyRun,
      getProp_mono hp (Nat.le_add_right n m), expresses_mono he (Nat.le_add_left m n)]

/-- Witness for C6 at a concrete configuration: the dedupe wrapper at
address 7 of `demoDeduped`, applied to the derived class 6 whose prototype
chain carries the application of trait 2, returns the base itself and
leaves the heap unchanged. -/
theorem claim6_witness :
    callFn demoDeduped (.addr 7) (.addr 6) (2 + 3 + 1) = (demoDeduped, .ok (.addr 6)) :=
  claim6_dedupe_idempotent.1 demoDeduped 7 2 6
    { proto := .addr 2, body := some (.dedupeBody 2) } 2 3 (.addr 5)
    (by decide) (by decide) (by decide) (by decide)

/-! ## Claim C10 -/

theorem andThen_ok (h : Heap) (a : Nat) (k : Heap → Nat → Heap × Except JsErr Val) :
    andThen (h, .ok (.addr a)) k = k h a := rfl

theorem andThen_err (h : Heap) (e : JsErr) (k : Heap → Nat → Heap × Except JsErr Val) :
    andThen (h, .error e) k = (h, .error e) := rfl

theorem newFn_length (h : Heap) (b : FnBody) :
    (newFn h b).1.objs.length = h.objs.length + 1 := alloc_length h _

theorem bodyAt_inv {h : Heap} {a : Nat} {b : FnBody} (hb : h.bodyAt a = some b) :
    ∃ o, h.objAt a = some o ∧ o.body = some b := by
  cases ho : h.objAt a with
  | none => rw [Heap.bodyAt, ho] at hb; exact absurd hb (by simp)
  | some o =>
    rw [Heap.bodyAt, ho] at hb
    exact ⟨o, rfl, by simpa using hb⟩

/-- What `wrap` does to the heap: it returns the wrapper's address (or an
error from the back-reference lookup), preserves the heap size, touches no
object other than the trait and the wrapper, and redirects the wrapper's
prototype to the trait. -/
theorem wrap_heap (h : Heap) (t w : Nat) (fuel : Nat) :
    ∃ h' r, wrap h t w fuel = (h', r) ∧
      (r = .ok (.addr w) ∨ ∃ e, r = .error e) ∧
      h'.objs.length = h.objs.length ∧
      (∀ b, b ≠ t → b ≠ w → h'.objAt b = h.objAt b) ∧
      (∀ ow, h.objAt w = some ow → t ≠ w → h'.objAt w = some { ow with proto := .addr t }) := by
  rw [wrap]
  match getProp (setProto h w (.addr t)) (.addr t) .wrappedTrait fuel with
  | .error e =>
    refine ⟨setProto h w (.addr t), .error e, rfl, .inr ⟨e, rfl⟩, setProto_length h w _, ?_, ?_⟩
    · intro b _ hbw
      exact objAt_setProto_ne h w (.addr t) (fun hwb => hbw hwb.symm)
    · intro ow how _
      exact objAt_setProto_self how (.addr t)
  | .ok x =>
    by_cases hx : truthy x
    · simp only [if_pos hx]
      refine ⟨setProto h w (.addr t), .ok (.addr w), rfl, .inl rfl, setProto_length h w _, ?_, ?_⟩
      · intro b _ hbw
        exact objAt_setProto_ne h w (.addr t) (fun hwb => hbw hwb.symm)
      · intro ow how _
        exact objAt_setProto_self how (.addr t)
    · simp only [if_neg hx]
      refine ⟨_, .ok (.addr w), rfl, .inl rfl, ?_, ?_, ?_⟩
      · rw [setProp_length, setProto_length]
      · intro b hbt hbw
        rw [objAt_setProp_ne _ t _ _ (fun htb => hbt htb.symm),
          objAt_setProto_ne h w (.addr t) (fun hwb => hbw hwb.symm)]
      · intro ow how htw
        rw [objAt_setProp_ne _ t _ _ htw, objAt_setProto_self how]

/-- The composite decorator always yields the `Dedupe` wrapper (two
allocations after the `BareTrait` one) as the callable result, or an
error. -/
theorem Trait_spec (h0 : Heap) (t : Nat) (fuel : Nat) :
    (∃ h' e, Trait h0 t fuel = (h', .error e)) ∨
    (∃ h', Trait h0 t fuel = (h', .ok (.addr (h0.objs.length + 2))) ∧
      h'.bodyAt (h0.objs.length + 2) = some (.dedupeBody (h0.objs.length + 1))) := by
  obtain ⟨Hb, r1, hw1, hr1, hlen1, hfr1, hwat1⟩ :=
    wrap_heap (newFn h0 (.bareBody t)).1 t h0.objs.length fuel
  have hd1 : BareTrait h0 t fuel = (Hb, r1) := hw1
  have hb_len : Hb.objs.length = h0.objs.length + 1 := by rw [hlen1, newFn_length]
  rcases hr1 with rfl | ⟨e, rfl⟩
  swap
  · exact .inl ⟨Hb, e, by simp only [Trait, hd1, andThen_err]⟩
  obtain ⟨Hc, r2, hw2, hr2, hlen2, hfr2, hwat2⟩ :=
    wrap_heap (newFn Hb (.cachedBody h0.objs.length)).1 h0.objs.length Hb.objs.length fuel
  have hd2 : Cached Hb h0.objs.length fuel = (Hc, r2) := hw2
  have hc_len : Hc.objs.length = h0.objs.length + 2 := by rw [hlen2, newFn_length, hb_len]
  rcases hr2 with rfl | ⟨e, rfl⟩
  swap
  · exact .inl ⟨Hc, e, by simp only [Trait, hd1, andThen_ok, hd2, andThen_err]⟩
  obtain ⟨Hd, r3, hw3, hr3, hlen3, hfr3, hwat3⟩ :=
    wrap_heap (newFn Hc (.dedupeBody Hb.objs.length)).1 Hb.objs.length Hc.objs.length fuel
  have hd3 : Dedupe Hc Hb.objs.length fuel = (Hd, r3) := hw3
  have hdw0 : (newFn Hc (.dedupeBody Hb.objs.length)).1.objAt Hc.objs.length =
      some { proto := .addr 1, props := [], body := some (.dedupeBody Hb.objs.length),
             entries := [] } :=
    objAt_alloc_new Hc _
  have hwcwd : Hb.objs.length ≠ Hc.objs.length := by rw [hb_len, hc_len]; omega
  have hdw1 : Hd.objAt Hc.objs.length =
      some { proto := .addr Hb.objs.length, props := [],
             body := some (.dedupeBody Hb.objs.length), entries := [] } := hwat3 _ hdw0 hwcwd
  rcases hr3 with rfl | ⟨e, rfl⟩
  swap
  · exact .inl ⟨Hd, e, by simp only [Trait, hd1, andThen_ok, hd2, hd3, andThen_err]⟩
  have hdwlt : Hc.objs.length < Hd.objs.length := by
    rw [hlen3, newFn_length, hc_len]
    omega
  match hgi : getProp Hd (.addr Hc.objs.length) .hasInstanceSym fuel with
  | .error e =>
    refine .inl ⟨Hd, e, ?_⟩
    simp only [Trait, hd1, andThen_ok, hd2, hd3, HasInstance, hgi]
  | .ok prior =>
    have h7at : (newFn Hd (.hasInstanceClosure prior Hc.objs.length)).1.objAt Hc.objs.length =
        some { proto := .addr Hb.objs.length, props := [],
               body := some (.dedupeBody Hb.objs.length), entries := [] } := by
      rw [show (newFn Hd (.hasInstanceClosure prior Hc.objs.length)).1.objAt Hc.objs.length =
          Hd.objAt Hc.objs.length from objAt_alloc_old hdwlt _, hdw1]
    refine .inr ⟨setProp (newFn Hd (.hasInstanceClosure prior Hc.objs.length)).1 Hc.objs.length
      .hasInstanceSym (.addr (newFn Hd (.hasInstanceClosure prior Hc.objs.length)).2), ?_, ?_⟩
    · rw [← hc_len]
      simp only [Trait, hd1, andThen_ok, hd2, hd3, HasInstance, hgi]
    · rw [← hc_len, ← hb_len, Heap.bodyAt]
      rw [objAt_setProp_self h7at .hasInstanceSym
        (.addr (newFn Hd (.hasInstanceClosure prior Hc.objs.length)).2)]
      rfl

theorem dedupeCall_null {h : Heap} {wd t : Nat} {od : Obj} (ho : h.objAt wd = some od)
    (hb : od.body = some (.dedupeBody t)) {s : Val} (hs : s = .undef ∨ s = .nullV) (fuel : Nat) :
    callFn h (.addr wd) s (fuel + 1) = (h, .error .typeError) := by
  rcases hs with rfl | rfl <;> simp [callFn, ho, hb, dedupeBodyRun, getProp]

/-- C10: invoking a `Dedupe`-wrapped trait function — and therefore also
the function returned by `Trait`, whose callable layer is the `Dedupe`
wrapper — with a `null` or `undefined` base throws `TypeError` (the
deduplication check reads the base's `prototype` unconditionally), and the
heap is left untouched; the empty-root default for an absent base exists
only on the builder path (`superclass()`/`traits(...)`), whose constructor
allocates a fresh empty root class. -/
theorem claim10_null_base :
    (∀ (h : Heap) (wd t : Nat) (od : Obj) (s : Val) (fuel : Nat),
      h.objAt wd = some od → od.body = some (.dedupeBody t) →
      s = .undef ∨ s = .nullV →
      callFn h (.addr wd) s (fuel + 1) = (h, .error .typeError))
    ∧
    (∀ (h0 : Heap) (t : Nat) (fuel : Nat) (h' : Heap) (r : Val),
      Trait h0 t fuel = (h', .ok r) →
      r = .addr (h0.objs.length + 2) ∧
      h'.bodyAt (h0.objs.length + 2) = some (.dedupeBody (h0.objs.length + 1)) ∧
      ∀ (s : Val) (f : Nat), s = .undef ∨ s = .nullV →
        callFn h' (.addr (h0.objs.length + 2)) s (f + 1) = (h', .error .typeError))
    ∧
    (∀ h : Heap, superclassB h .undef = ((newRootClass h).1, ⟨.addr (newRootClass h).2⟩) ∧
      (newRootClass h).2 = h.objs.length + 1 ∧
      (newRootClass h).1.bodyAt (newRootClass h).2 = some .classCons) := by
  refine ⟨?_, ?_, ?_⟩
  · intro h wd t od s fuel ho hb hs
    exact dedupeCall_null ho hb hs fuel
  · intro h0 t fuel h' r htr
    rcases Trait_spec h0 t fuel with ⟨h2, e, hteq⟩ | ⟨h2, hteq, hbody⟩
    · rw [htr] at hteq
      exact absurd hteq (by simp)
    · rw [htr] at hteq
      injection hteq with hh hr2
      injection hr2 with hr2
      subst hh
      subst hr2
      refine ⟨rfl, hbody, ?_⟩
      obtain ⟨od, hod, hob⟩ := bodyAt_inv hbody
      intro s f hs
      exact dedupeCall_null hod hob hs f
  · intro h
    refine ⟨rfl, ?_, ?_⟩
    · exact alloc_length h _
    · have h2 : (newRootClass h).1.objAt (newRootClass h).2 =
          some { proto := .addr 1, props := [(.prototypeKey, .addr h.objs.length)],
                 body := some .classCons, entries := [] } := objAt_alloc_new _ _
      rw [Heap.bodyAt, h2]
      rfl

/-- Witness for C10 at a concrete configuration: the fully decorated trait
built by `Trait` over the demonstration raw trait (its callable layer, the
dedupe wrapper, sits at address 5) throws `TypeError` when invoked on
`undefined` or `null`. -/
theorem claim10_witness :
    Val.addr 5 = .addr ((newFn initHeap (.userTrait 7)).1.objs.length + 2) ∧
    (Trait (newFn initHeap (.userTrait 7)).1 2 10).1.bodyAt
      ((newFn initHeap (.userTrait 7)).1.objs.length + 2) = some (.dedupeBody 4) ∧
    ∀ (s : Val) (f : Nat), s = .undef ∨ s = .nullV →
      callFn (Trait (newFn initHeap (.userTrait 7)).1 2 10).1 (.addr 5) s (f + 1) =
        ((Trait (newFn initHeap (.userTrait 7)).1 2 10).1, .error .typeError) := by
  have h5 : ((newFn initHeap (.userTrait 7)).1.objs.length + 2 : Nat) = 5 := by decide
  have h4 : ((newFn initHeap (.userTrait 7)).1.objs.length + 1 : Nat) = 4 := by decide
  have := claim10_null_base.2.1 (newFn initHeap (.userTrait 7)).1 2 10
    (Trait (newFn initHeap (.userTrait 7)).1 2 10).1 (.addr 5) (by decide)
  rw [h5, h4] at this
  rw [h5]
  exact ⟨this.1, this.2.1, this.2.2⟩

/-! ## Claim C9 -/

theorem throwing_call {h : Heap} {t k : Nat} {ot : Obj} (hot : h.objAt t = some ot)
    (hbody : ot.body = some (.throwingTrait k)) (s : Val) (fuel : Nat) :
    callFn h (.addr t) s (fuel + 1) =
      ({ h with trace := h.trace ++ [k] }, .error (.userThrow k)) := by
  simp only [callFn, hot, hbody]

/-- The heap after `Cached`'s miss path has installed a fresh `Map` on the
base: the map is allocated at the next free address and stored as the
base's own `_cachedApplications` property. -/
def cacheInstall (h : Heap) (b : Nat) : Heap :=
  setProp (allocObj h { entries := [] }).1 b .cachedApplications (.addr h.objs.length)

theorem cacheInstall_trace (h : Heap) (b : Nat) : (cacheInstall h b).trace = h.trace := by
  rw [cacheInstall, setProp_trace, alloc_trace]

theorem cacheInstall_objAt_map {h : Heap} {b : Nat} (hbne : b ≠ h.objs.length) :
    (cacheInstall h b).objAt h.objs.length = some ({ entries := [] } : Obj) := by
  rw [cacheInstall, objAt_setProp_ne _ b _ _ hbne, objAt_alloc_new]

theorem cacheInstall_objAt_base {h : Heap} {b : Nat} {ob : Obj} (hob : h.objAt b = some ob) :
    (cacheInstall h b).objAt b =
      some { ob with props := propSet ob.props .cachedApplications (.addr h.objs.length) } := by
  rw [cacheInstall, objAt_setProp_self (by rw [objAt_alloc_old (objAt_valid hob)]; exact hob)]

theorem cacheInstall_objAt_other {h : Heap} {b a : Nat} (hab : a ≠ b)
    (halt : a < h.objs.length) : (cacheInstall h b).objAt a = h.objAt a := by
  rw [cacheInstall, objAt_setProp_ne _ b _ _ (fun hba => hab hba.symm), objAt_alloc_old halt]

/-- A `Cached` wrapper on a cache miss over a base with no visible cache:
a fresh `Map` is allocated and installed on the base, the miss invokes the
underlying trait, and the entry is recorded only on success — an exception
leaves the map entry unwritten. -/
theorem cached_miss {h : Heap} {wc t b : Nat} {oc ob : Obj} {n : Nat} {ca : Val}
    (hwc : h.objAt wc = some oc) (hbody : oc.body = some (.cachedBody t))
    (hob : h.objAt b = some ob)
    (hca : getProp h (.addr b) .cachedApplications n = .ok ca) (hcaf : truthy ca = false)
    {fuel : Nat} (hn : n ≤ fuel)
    {h2 : Heap} {r : Except JsErr Val}
    (hcall : callFn (cacheInstall h b) (.addr t) (.addr b) fuel = (h2, r)) :
    callFn h (.addr wc) (.addr b) (fuel + 1) =
      (match r with
       | .error e => (h2, .error e)
       | .ok app2 => (mapSet h2 h.objs.length t app2, .ok app2)) := by
  have hbne : b ≠ h.objs.length := Nat.ne_of_lt (objAt_valid hob)
  have hmg : mapGet (cacheInstall h b) h.objs.length t = .undef := by
    rw [mapGet, cacheInstall_objAt_map hbne]
    simp [List.find?]
  rw [cacheInstall] at hmg hcall
  simp only [callFn, hwc, hbody, cachedBodyRun, getProp_mono hca hn, hcaf, alloc_addr,
    Bool.false_eq_true, if_false, hmg, truthy_undef, hcall]
  cases r <;> rfl

/-- C9: a trait body that throws propagates its exception unmodified
through `apply` and through a `Cached` wrapper; on the cached path no
cache entry is written for the (base, trait) pair, so a subsequent call
invokes the trait body again (observable in the invocation trace). -/
theorem claim9_error_propagation :
    (∀ (h : Heap) (t k : Nat) (ot : Obj) (s : Val) (fuel : Nat),
      h.objAt t = some ot → ot.body = some (.throwingTrait k) →
      applyT h s (.addr t) (fuel + 1) =
        ({ h with trace := h.trace ++ [k] }, .error (.userThrow k)))
    ∧
    (∀ (h : Heap) (wc t b k : Nat) (oc ot ob : Obj) (n : Nat) (ca : Val) (m : Nat),
      h.objAt wc = some oc → oc.body = some (.cachedBody t) →
      h.objAt t = some ot → ot.body = some (.throwingTrait k) →
      h.objAt b = some ob →
      getProp h (.addr b) .cachedApplications n = .ok ca → truthy ca = false →
      t ≠ b → wc ≠ b →
      n ≤ m + 1 →
      ∃ h1, callFn h (.addr wc) (.addr b) (m + 1 + 1) = (h1, .error (.userThrow k)) ∧
        h1.trace = h.trace ++ [k] ∧
        mapGet h1 h.objs.length t = .undef ∧
        ∃ h2, callFn h1 (.addr wc) (.addr b) (m + 1 + 1) = (h2, .error (.userThrow k)) ∧
          h2.trace = h.trace ++ [k, k]) := by
  constructor
  · intro h t k ot s fuel hot hbody
    simp only [applyT, applyRun, throwing_call hot hbody s fuel]
  · intro h wc t b k oc ot ob n ca m hwc hoc hot hbody hob hca hcaf htb hwcb hnm
    have hbne : b ≠ h.objs.length := Nat.ne_of_lt (objAt_valid hob)
    have hmid_t : (cacheInstall h b).objAt t = some ot := by
      rw [cacheInstall_objAt_other htb (objAt_valid hot)]
      exact hot
    have hcall := throwing_call hmid_t hbody (.addr b) m
    have hfirst := cached_miss hwc hoc hob hca hcaf hnm hcall
    refine ⟨{ cacheInstall h b with trace := (cacheInstall h b).trace ++ [k] }, hfirst, ?_,
      ?_, ?_⟩
    · show (cacheInstall h b).trace ++ [k] = h.trace ++ [k]
      rw [cacheInstall_trace]
    · rw [mapGet, objAt_withTrace, cacheInstall_objAt_map hbne]
      simp [List.find?]
    · -- second call: the base now carries the (still empty) map as an own
      -- property, the lookup misses, and the trait body runs — and throws —
      -- again
      have hOA : ∀ a, (⟨(cacheInstall h b).objs,
            (cacheInstall h b).trace ++ [k]⟩ : Heap).objAt a =
          (cacheInstall h b).objAt a := fun _ => rfl
      have h1b : (⟨(cacheInstall h b).objs,
            (cacheInstall h b).trace ++ [k]⟩ : Heap).objAt b =
          some { ob with
            props := (propSet ob.props .cachedApplications (.addr h.objs.length)) } := by
        rw [hOA]
        exact cacheInstall_objAt_base hob
      have h1ca := getProp_own h1b (findProp_propSet_self _ _ _) m
      have h1map : (⟨(cacheInstall h b).objs,
            (cacheInstall h b).trace ++ [k]⟩ : Heap).objAt h.objs.length =
          some ({ entries := [] } : Obj) := by
        rw [hOA]
        exact cacheInstall_objAt_map hbne
      have h1wc : (⟨(cacheInstall h b).objs,
            (cacheInstall h b).trace ++ [k]⟩ : Heap).objAt wc = some oc := by
        rw [hOA, cacheInstall_objAt_other hwcb (objAt_valid hwc)]
        exact hwc
      have h1t : (⟨(cacheInstall h b).objs,
            (cacheInstall h b).trace ++ [k]⟩ : Heap).objAt t = some ot := by
        rw [hOA]
        exact hmid_t
      have hmg2 : mapGet (⟨(cacheInstall h b).objs,
            (cacheInstall h b).trace ++ [k]⟩ : Heap) h.objs.length t = .undef := by
        rw [mapGet, h1map]
        simp [List.find?]
      refine ⟨(⟨(cacheInstall h b).objs,
        ((cacheInstall h b).trace ++ [k]) ++ [k]⟩ : Heap), ?_, ?_⟩
      · simp [callFn, h1wc, hoc, cachedBodyRun, h1ca, truthy_addr, hmg2, truthy_undef,
          h1t, hbody]
      · show ((cacheInstall h b).trace ++ [k]) ++ [k] = h.trace ++ [k, k]
        rw [cacheInstall_trace, List.append_assoc]
        rfl

/-- Demonstration heap for C9: a throwing user trait (tag 9) at address 2,
a root base class (prototype 3, constructor 4), and a `Cached` wrapper of
the throwing trait at address 5. -/
def demoThrow : Heap := (Cached (newRootClass (newFn initHeap (.throwingTrait 9)).1).1 2 10).1

/-- Witness for C9 at a concrete configuration: the thrown error passes
through `apply` and the cached wrapper unmodified, no cache entry is
written, and the second call runs (and traces) the trait body again. -/
theorem claim9_witness :
    applyT demoThrow (.addr 4) (.addr 2) (3 + 1) =
      ({ demoThrow with trace := demoThrow.trace ++ [9] }, .error (.userThrow 9)) ∧
    ∃ h1, callFn demoThrow (.addr 5) (.addr 4) (1 + 1 + 1) = (h1, .error (.userThrow 9)) ∧
      h1.trace = demoThrow.trace ++ [9] ∧
      mapGet h1 demoThrow.objs.length 2 = .undef ∧
      ∃ h2, callFn h1 (.addr 5) (.addr 4) (1 + 1 + 1) = (h2, .error (.userThrow 9)) ∧
        h2.trace = demoThrow.trace ++ [9, 9] :=
  ⟨claim9_error_propagation.1 demoThrow 2 9
      { proto := .addr 1, props := [(.wrappedTrait, .addr 2)],
        body := some (.throwingTrait 9), entries := [] } (.addr 4) 3 (by decide) (by decide),
    claim9_error_propagation.2 demoThrow 5 2 4 9
      { proto := .addr 2, props := [], body := some (.cachedBody 2), entries := [] }
      { proto := .addr 1, props := [(.wrappedTrait, .addr 2)],
        body := some (.throwingTrait 9), entries := [] }
      { proto := .addr 1, props := [(.prototypeKey, .addr 3)], body := some .classCons,
        entries := [] }
      2 .undef 1 (by decide) (by decide) (by decide) (by decide) (by decide) (by decide)
      (by decide) (by decide) (by decide) (by decide)⟩

/-! ## Claim C3 -/

theorem cacheInstall_length (h : Heap) (b : Nat) :
    (cacheInstall h b).objs.length = h.objs.length + 1 := by
  rw [cacheInstall, setProp_length, alloc_length]

/-- Abbreviation (proof layer only): the heap left behind by one run of a
raw user trait body over `hc` — the invocation traced, a fresh prototype
object extending `pv`, and a fresh derived class. -/
def freshApp (hc : Heap) (b k : Nat) (pv : Val) : Heap :=
  (allocObj (allocObj (⟨hc.objs, hc.trace ++ [k]⟩ : Heap) { proto := pv }).1
    { proto := .addr b, props := [(.prototypeKey, .addr hc.objs.length)],
      body := some .classCons, entries := [] }).1

theorem freshApp_trace (hc : Heap) (b k : Nat) (pv : Val) :
    (freshApp hc b k pv).trace = hc.trace ++ [k] := by
  rw [freshApp, alloc_trace, alloc_trace]

theorem freshApp_length (hc : Heap) (b k : Nat) (pv : Val) :
    (freshApp hc b k pv).objs.length = hc.objs.length + 2 := by
  rw [freshApp, alloc_length, alloc_length]

theorem freshApp_objAt_lt {hc : Heap} {a : Nat} (ha : a < hc.objs.length) (b k : Nat)
    (pv : Val) : (freshApp hc b k pv).objAt a = hc.objAt a := by
  rw [freshApp, objAt_alloc_old (by rw [alloc_length]; exact Nat.lt_succ_of_lt ha),
    objAt_alloc_old
      (show a < (⟨hc.objs, hc.trace ++ [k]⟩ : Heap).objs.length from ha)]
  rfl

theorem freshApp_objAt_proto (hc : Heap) (b k : Nat) (pv : Val) :
    (freshApp hc b k pv).objAt hc.objs.length = some ({ proto := pv } : Obj) := by
  rw [freshApp, objAt_alloc_old (by rw [alloc_length]; exact Nat.lt_succ_self _)]
  exact objAt_alloc_new _ _

theorem freshApp_objAt_class (hc : Heap) (b k : Nat) (pv : Val) :
    (freshApp hc b k pv).objAt (hc.objs.length + 1) =
      some { proto := .addr b, props := [(.prototypeKey, .addr hc.objs.length)],
             body := some .classCons, entries := [] } := by
  have h1 := objAt_alloc_new
    (allocObj (⟨hc.objs, hc.trace ++ [k]⟩ : Heap) { proto := pv }).1
    { proto := .addr b, props := [(.prototypeKey, .addr hc.objs.length)],
      body := some .classCons, entries := [] }
  rw [alloc_length] at h1
  exact h1

/-- Invoking a raw user trait (`s => class extends s { ... }`) on a class
whose `prototype` is an own property: the invocation is traced and a fresh
prototype object plus a fresh derived class are allocated. -/
theorem userTrait_call_spec {h : Heap} {t b k : Nat} {ot ob : Obj} {pv : Val}
    (hot : h.objAt t = some ot) (hbody : ot.body = some (.userTrait k))
    (hob : h.objAt b = some ob) (hpv : findProp ob.props .prototypeKey = some pv)
    (hok : okProto pv = true) (fuel : Nat) :
    callFn h (.addr t) (.addr b) (fuel + 1 + 1) =
      (freshApp h b k pv, .ok (.addr (h.objs.length + 1))) := by
  have hob' : (⟨h.objs, h.trace ++ [k]⟩ : Heap).objAt b = some ob := hob
  have hget := getProp_own hob' hpv fuel
  simp only [callFn, hot, hbody, mkSubclassFrom, hget, hok, if_true, freshApp, alloc_addr,
    alloc_length]

/-- On a base with no visible cache, the first invocation of a `Cached`
wrapper runs the trait body exactly once (one trace entry), installs the
cache, and returns the fresh derived class; the second invocation returns
the object-identical derived class and leaves the heap untouched. -/
theorem cached_fresh_spec :
    ∀ (h : Heap) (wc t b k : Nat) (oc ot ob : Obj) (n : Nat) (ca pv : Val) (m : Nat),
      h.objAt wc = some oc → oc.body = some (.cachedBody t) →
      h.objAt t = some ot → ot.body = some (.userTrait k) →
      h.objAt b = some ob →
      getProp h (.addr b) .cachedApplications n = .ok ca → truthy ca = false →
      findProp ob.props .prototypeKey = some pv → okProto pv = true →
      t ≠ b → wc ≠ b →
      n ≤ m + 1 + 1 →
      ∃ h1, callFn h (.addr wc) (.addr b) (m + 1 + 1 + 1) =
          (h1, .ok (.addr (h.objs.length + 2))) ∧
        h1.trace = h.trace ++ [k] ∧
        callFn h1 (.addr wc) (.addr b) (m + 1 + 1 + 1) =
          (h1, .ok (.addr (h.objs.length + 2))) := by
  intro h wc t b k oc ot ob n ca pv m hwc hoc hot hbody hob hca hcaf hpv hok htb hwcb hnm
  have hbne : b ≠ h.objs.length := Nat.ne_of_lt (objAt_valid hob)
  have hwclt : wc < h.objs.length := objAt_valid hwc
  have hblt : b < h.objs.length := objAt_valid hob
  have hcl := cacheInstall_length h b
  have hmid_t : (cacheInstall h b).objAt t = some ot := by
    rw [cacheInstall_objAt_other htb (objAt_valid hot)]
    exact hot
  have hmid_b : (cacheInstall h b).objAt b =
      some { ob with
        props := (propSet ob.props .cachedApplications (.addr h.objs.length)) } :=
    cacheInstall_objAt_base hob
  have hmid_pv : findProp (propSet ob.props .cachedApplications (.addr h.objs.length))
      .prototypeKey = some pv := by
    rw [findProp_propSet_ne _ (by simp) _]
    exact hpv
  have hcall := userTrait_call_spec hmid_t hbody hmid_b hmid_pv hok m
  have hfirst := cached_miss hwc hoc hob hca hcaf hnm hcall
  have haddr : h.objs.length + 2 = (cacheInstall h b).objs.length + 1 := by
    rw [hcl]
  -- facts about the heap after the first call
  have hfwc : (freshApp (cacheInstall h b) b k pv).objAt wc = some oc := by
    rw [freshApp_objAt_lt (by rw [hcl]; exact Nat.lt_succ_of_lt hwclt),
      cacheInstall_objAt_other hwcb hwclt]
    exact hwc
  have hfb : (freshApp (cacheInstall h b) b k pv).objAt b =
      some { ob with
        props := (propSet ob.props .cachedApplications (.addr h.objs.length)) } := by
    rw [freshApp_objAt_lt (by rw [hcl]; exact Nat.lt_succ_of_lt hblt)]
    exact hmid_b
  have hfmap : (freshApp (cacheInstall h b) b k pv).objAt h.objs.length =
      some ({ entries := [] } : Obj) := by
    rw [freshApp_objAt_lt (by rw [hcl]; exact Nat.lt_succ_self _)]
    exact cacheInstall_objAt_map hbne
  have hLwc : h.objs.length ≠ wc := (Nat.ne_of_lt hwclt).symm
  have hLb : h.objs.length ≠ b := fun hlb => hbne hlb.symm
  refine ⟨mapSet (freshApp (cacheInstall h b) b k pv) h.objs.length t
      (.addr ((cacheInstall h b).objs.length + 1)), ?_, ?_, ?_⟩
  · rw [haddr]
    exact hfirst
  · rw [mapSet_trace, freshApp_trace, cacheInstall_trace]
  · have hH1wc : (mapSet (freshApp (cacheInstall h b) b k pv) h.objs.length t
        (.addr ((cacheInstall h b).objs.length + 1))).objAt wc = some oc := by
      rw [objAt_mapSet_ne _ _ _ _ hLwc]
      exact hfwc
    have hH1b : (mapSet (freshApp (cacheInstall h b) b k pv) h.objs.length t
        (.addr ((cacheInstall h b).objs.length + 1))).objAt b =
        some { ob with
          props := (propSet ob.props .cachedApplications (.addr h.objs.length)) } := by
      rw [objAt_mapSet_ne _ _ _ _ hLb]
      exact hfb
    have hH1ca := getProp_own hH1b (findProp_propSet_self _ _ _) (m + 1)
    have hmgH1 : mapGet (mapSet (freshApp (cacheInstall h b) b k pv) h.objs.length t
        (.addr ((cacheInstall h b).objs.length + 1))) h.objs.length t =
        .addr ((cacheInstall h b).objs.length + 1) := mapGet_mapSet_self hfmap t _
    rw [haddr]
    simp only [callFn, hH1wc, hoc, cachedBodyRun, hH1ca, truthy_addr, if_true, hmgH1]

/-- C3: idempotence of `Cached`.  For every trait function `t` and base
class `b` with no visible application cache, calling the `Cached` wrapper
twice on `b` returns the object-identical derived class both times, and
the underlying trait body is invoked exactly once: the first call adds a
single entry to the invocation trace and the second call returns the very
same heap, so the body is not re-invoked. -/
theorem claim3_cached_idempotent :
    ∀ (h : Heap) (wc t b k : Nat) (oc ot ob : Obj) (n : Nat) (ca pv : Val) (m : Nat),
      h.objAt wc = some oc → oc.body = some (.cachedBody t) →
      h.objAt t = some ot → ot.body = some (.userTrait k) →
      h.objAt b = some ob →
      getProp h (.addr b) .cachedApplications n = .ok ca → truthy ca = false →
      findProp ob.props .prototypeKey = some pv → okProto pv = true →
      t ≠ b → wc ≠ b →
      n ≤ m + 1 + 1 →
      ∃ h1, callFn h (.addr wc) (.addr b) (m + 1 + 1 + 1) =
          (h1, .ok (.addr (h.objs.length + 2))) ∧
        h1.trace = h.trace ++ [k] ∧
        callFn h1 (.addr wc) (.addr b) (m + 1 + 1 + 1) =
          (h1, .ok (.addr (h.objs.length + 2))) :=
  cached_fresh_spec

/-- A `Cached` wrapper (address 5) around the demonstration raw trait. -/
def demoCached : Heap := (Cached demoHeap 2 10).1

/-- Witness for C3 at a concrete configuration: the cached wrapper applied
twice to the root base class yields the identical derived class (address
8) both times with a single trace entry. -/
theorem claim3_witness :
    ∃ h1, callFn demoCached (.addr 5) (.addr 4) (0 + 1 + 1 + 1) =
        (h1, .ok (.addr (demoCached.objs.length + 2))) ∧
      h1.trace = demoCached.trace ++ [7] ∧
      callFn h1 (.addr 5) (.addr 4) (0 + 1 + 1 + 1) =
        (h1, .ok (.addr (demoCached.objs.length + 2))) :=
  claim3_cached_idempotent demoCached 5 2 4 7
    { proto := .addr 2, props := [], body := some (.cachedBody 2), entries := [] }
    { proto := .addr 1, props := [(.wrappedTrait, .addr 2)], body := some (.userTrait 7),
      entries := [] }
    { proto := .addr 1, props := [(.prototypeKey, .addr 3)], body := some .classCons,
      entries := [] }
    2 .undef (.addr 3) 0 (by decide) (by decide) (by decide) (by decide) (by decide)
    (by decide) (by decide) (by decide) (by decide) (by decide) (by decide) (by decide)

/-! ## Claim C4 -/

/-- The demonstration heap extended by a subclass of the base: `B2`
(address 7, with its prototype object at 6) extends `B1` (address 4), so
`B2`'s prototype-chain lookup of `_cachedApplications` finds `B1`'s map. -/
def demoSubBase : Heap :=
  (allocObj (allocObj demoCached { proto := .addr 3 }).1
    { proto := .addr 4, props := [(.prototypeKey, .addr 6)], body := some .classCons,
      entries := [] }).1

/-- Counterexample to C4 as stated.  The claim includes the case where the
second base is a subclass of the first and asserts that applying a
`Cached` trait to `B2` never returns the class cached for `B1`.  In this
concrete heap, applying the cached trait (wrapper 5) to `B1` (address 4)
produces the derived class at address 10; applying it afterwards to `B2`
(address 7), a subclass of `B1`, returns that very same class — the heap
is unchanged (so the trait body is not re-invoked, trace still one entry)
and the returned class extends `B1`, not `B2`, because the
`superclass[_cachedApplications]` read walks the prototype chain and finds
`B1`'s cache map. -/
theorem claim4_counterexample :
    (callFn demoSubBase (.addr 5) (.addr 4) 12).2 = .ok (.addr 10) ∧
    callFn (callFn demoSubBase (.addr 5) (.addr 4) 12).1 (.addr 5) (.addr 7) 12 =
      ((callFn demoSubBase (.addr 5) (.addr 4) 12).1, .ok (.addr 10)) ∧
    (callFn demoSubBase (.addr 5) (.addr 4) 12).1.trace = demoSubBase.trace ++ [7] ∧
    ((callFn demoSubBase (.addr 5) (.addr 4) 12).1.objAt 10).map (·.proto) =
      some (.addr 4) := by
  decide

/-- C4 (amended): per-base cache scoping holds for a base whose own
prototype-chain lookup of `_cachedApplications` is still falsy at the
moment of application — in particular for bases unrelated to any base
already carrying a cache.  Applying the cached trait to such a base `b2`
invokes the trait body (one new trace entry) and returns a fresh derived
class, distinct from every existing object and so in particular from any
class previously computed and cached for another base; the amendment the
counterexample forces is to exclude bases that inherit a cache through
their prototype chain (e.g. a subclass of an already-cached base), where
the parent's cached class is returned instead. -/
theorem claim4_per_base_scoping :
    ∀ (h : Heap) (wc t b2 k : Nat) (oc ot ob2 : Obj) (n : Nat) (ca pv : Val) (m : Nat),
      h.objAt wc = some oc → oc.body = some (.cachedBody t) →
      h.objAt t = some ot → ot.body = some (.userTrait k) →
      h.objAt b2 = some ob2 →
      getProp h (.addr b2) .cachedApplications n = .ok ca → truthy ca = false →
      findProp ob2.props .prototypeKey = some pv → okProto pv = true →
      t ≠ b2 → wc ≠ b2 →
      n ≤ m + 1 + 1 →
      ∃ h2, callFn h (.addr wc) (.addr b2) (m + 1 + 1 + 1) =
          (h2, .ok (.addr (h.objs.length + 2))) ∧
        h2.trace = h.trace ++ [k] ∧
        ∀ c1, c1 < h.objs.length → Val.addr (h.objs.length + 2) ≠ Val.addr c1 := by
  intro h wc t b2 k oc ot ob2 n ca pv m hwc hoc hot hbody hob hca hcaf hpv hok htb hwcb hnm
  obtain ⟨h2, he1, he2, _⟩ :=
    cached_fresh_spec h wc t b2 k oc ot ob2 n ca pv m hwc hoc hot hbody hob hca hcaf hpv
      hok htb hwcb hnm
  refine ⟨h2, he1, he2, ?_⟩
  intro c1 hc1 hceq
  have : h.objs.length + 2 = c1 := by injection hceq
  omega

/-- Witness for C4 (amended) at a concrete configuration: `demoSubBase`
also contains a second, unrelated root base class in no prototype relation
to `B1` — here we reuse the heap before any cache exists, applying the
cached wrapper to the freestanding base `B1` itself, whose cache lookup is
falsy, producing the fresh class at address 10, distinct from every
pre-existing address. -/
theorem claim4_witness :
    ∃ h2, callFn demoSubBase (.addr 5) (.addr 4) (8 + 1 + 1 + 1) =
        (h2, .ok (.addr (demoSubBase.objs.length + 2))) ∧
      h2.trace = demoSubBase.trace ++ [7] ∧
      ∀ c1, c1 < demoSubBase.objs.length →
        Val.addr (demoSubBase.objs.length + 2) ≠ Val.addr c1 :=
  claim4_per_base_scoping demoSubBase 5 2 4 7
    { proto := .addr 2, props := [], body := some (.cachedBody 2), entries := [] }
    { proto := .addr 1, props := [(.wrappedTrait, .addr 2)], body := some (.userTrait 7),
      entries := [] }
    { proto := .addr 1, props := [(.prototypeKey, .addr 3)], body := some .classCons,
      entries := [] }
    2 .undef (.addr 3) 8 (by decide) (by decide) (by decide) (by decide) (by decide)
    (by decide) (by decide) (by decide) (by decide) (by decide) (by decide) (by decide)

/-! ## Claim C5 -/

/-- C5: round-trip and idempotence of `wrap`/`unwrap`.
Part 1: for any trait `t` and fresh wrapper `w` (no own back-reference),
`unwrap(wrap(t, w))` equals `t`'s unwrapped identity — whatever value `u`
the back-reference lookup on `t` resolves to (set to `t` itself when the
lookup was falsy, left alone when a deeper original is already recorded).
Part 2: wrapping the wrapper `w` again with `w2` still unwraps to the
deepest original `t`: the back-reference was set on the original only and
is reached through prototype delegation, and the second `wrap` does not
overwrite it (the inherited back-reference is already truthy).
Part 3: for a function never passed to `wrap` — one whose back-reference
lookup is falsy — `unwrap` returns the function itself, making `unwrap`
idempotent on already-unwrapped functions. -/
theorem claim5_wrap_unwrap :
    (∀ (h0 : Heap) (t w : Nat) (ot ow : Obj) (n : Nat) (x : Val),
      t ≠ w →
      h0.objAt t = some ot → h0.objAt w = some ow →
      findProp ow.props .wrappedTrait = none →
      getProp (setProto h0 w (.addr t)) (.addr t) .wrappedTrait n = .ok x →
      ∃ h1 u, wrap h0 t w n = (h1, .ok (.addr w)) ∧
        unwrap h1 (.addr w) (n + 2) = .ok u ∧
        unwrap h1 (.addr t) (n + 1) = .ok u)
    ∧
    (∀ (h0 : Heap) (t w w2 : Nat) (ot ow ow2 : Obj) (n : Nat),
      t ≠ w → t ≠ w2 → w ≠ w2 →
      h0.objAt t = some ot → h0.objAt w = some ow → h0.objAt w2 = some ow2 →
      findProp ow.props .wrappedTrait = none →
      findProp ow2.props .wrappedTrait = none →
      getProp (setProto h0 w (.addr t)) (.addr t) .wrappedTrait n = .ok .undef →
      wrap h0 t w n =
        (setProp (setProto h0 w (.addr t)) t .wrappedTrait (.addr t), .ok (.addr w)) ∧
      wrap (setProp (setProto h0 w (.addr t)) t .wrappedTrait (.addr t)) w w2 2 =
        (setProto (setProp (setProto h0 w (.addr t)) t .wrappedTrait (.addr t)) w2
          (.addr w), .ok (.addr w2)) ∧
      unwrap (setProto (setProp (setProto h0 w (.addr t)) t .wrappedTrait (.addr t)) w2
        (.addr w)) (.addr w2) 3 = .ok (.addr t) ∧
      unwrap (setProto (setProp (setProto h0 w (.addr t)) t .wrappedTrait (.addr t)) w2
        (.addr w)) (.addr t) 1 = .ok (.addr t))
    ∧
    (∀ (h : Heap) (v x : Val) (n : Nat),
      getProp h v .wrappedTrait n = .ok x → truthy x = false →
      unwrap h v n = .ok v) := by
  refine ⟨?_, ?_, ?_⟩
  · intro h0 t w ot ow n x htw hot how hww hx
    have hsw : (setProto h0 w (.addr t)).objAt w = some { ow with proto := .addr t } :=
      objAt_setProto_self how (.addr t)
    have hst : (setProto h0 w (.addr t)).objAt t = some ot := by
      rw [objAt_setProto_ne _ w _ (fun hwt => htw hwt.symm)]
      exact hot
    by_cases hxt : truthy x
    · refine ⟨setProto h0 w (.addr t), x, ?_, ?_, ?_⟩
      · simp only [wrap, hx]
        rw [if_pos hxt]
      · rw [unwrap, getProp_step hsw hww rfl (n + 1), getProp_mono hx (Nat.le_succ n)]
        simp [hxt]
      · rw [unwrap, getProp_mono hx (Nat.le_succ n)]
        simp [hxt]
    · refine ⟨setProp (setProto h0 w (.addr t)) t .wrappedTrait (.addr t), .addr t, ?_,
        ?_, ?_⟩
      · simp only [wrap, hx]
        rw [if_neg hxt]
      · have hw1 : (setProp (setProto h0 w (.addr t)) t .wrappedTrait
            (.addr t)).objAt w = some { ow with proto := .addr t } := by
          rw [objAt_setProp_ne _ t _ _ htw]
          exact hsw
        have ht1 : (setProp (setProto h0 w (.addr t)) t .wrappedTrait
            (.addr t)).objAt t = some { ot with
              props := (propSet ot.props .wrappedTrait (.addr t)) } :=
          objAt_setProp_self hst _ _
        rw [unwrap, getProp_step hw1 hww rfl (n + 1),
          getProp_own ht1 (findProp_propSet_self _ _ _) n]
        rfl
      · have ht1 : (setProp (setProto h0 w (.addr t)) t .wrappedTrait
            (.addr t)).objAt t = some { ot with
              props := (propSet ot.props .wrappedTrait (.addr t)) } :=
          objAt_setProp_self hst _ _
        rw [unwrap, getProp_own ht1 (findProp_propSet_self _ _ _) n]
        rfl
  · intro h0 t w w2 ot ow ow2 n htw htw2 hww2 hot how how2 hwprops hw2props hx
    have hsw : (setProto h0 w (.addr t)).objAt w = some { ow with proto := .addr t } :=
      objAt_setProto_self how (.addr t)
    have hst : (setProto h0 w (.addr t)).objAt t = some ot := by
      rw [objAt_setProto_ne _ w _ (fun hwt => htw hwt.symm)]
      exact hot
    have hw1 : (setProp (setProto h0 w (.addr t)) t .wrappedTrait (.addr t)).objAt w =
        some { ow with proto := .addr t } := by
      rw [objAt_setProp_ne _ t _ _ htw]
      exact hsw
    have ht1 : (setProp (setProto h0 w (.addr t)) t .wrappedTrait (.addr t)).objAt t =
        some { ot with props := (propSet ot.props .wrappedTrait (.addr t)) } :=
      objAt_setProp_self hst _ _
    have hw2at : (setProp (setProto h0 w (.addr t)) t .wrappedTrait (.addr t)).objAt w2 =
        some ow2 := by
      rw [objAt_setProp_ne _ t _ _ htw2, objAt_setProto_ne _ w _ (fun hw' => hww2 hw')]
      exact how2
    have h2w2 : (setProto (setProp (setProto h0 w (.addr t)) t .wrappedTrait (.addr t))
        w2 (.addr w)).objAt w2 = some { ow2 with proto := .addr w } :=
      objAt_setProto_self hw2at (.addr w)
    have h2w : (setProto (setProp (setProto h0 w (.addr t)) t .wrappedTrait (.addr t))
        w2 (.addr w)).objAt w = some { ow with proto := .addr t } := by
      rw [objAt_setProto_ne _ w2 _ (fun hw' => hww2 hw'.symm)]
      exact hw1
    have h2t : (setProto (setProp (setProto h0 w (.addr t)) t .wrappedTrait (.addr t))
        w2 (.addr w)).objAt t = some { ot with
          props := (propSet ot.props .wrappedTrait (.addr t)) } := by
      rw [objAt_setProto_ne _ w2 _ (fun ht' => htw2 ht'.symm)]
      exact ht1
    refine ⟨?_, ?_, ?_, ?_⟩
    · simp only [wrap, hx]
      rw [if_neg (by simp [truthy])]
    · have hg2 : getProp (setProto (setProp (setProto h0 w (.addr t)) t .wrappedTrait
          (.addr t)) w2 (.addr w)) (.addr w) .wrappedTrait 2 = .ok (.addr t) := by
        rw [getProp_step h2w hwprops rfl 1, getProp_own h2t (findProp_propSet_self _ _ _) 0]
      simp only [wrap, hg2]
      rw [if_pos (by simp [truthy])]
    · rw [unwrap, getProp_step h2w2 hw2props rfl 2, getProp_step h2w hwprops rfl 1,
        getProp_own h2t (findProp_propSet_self _ _ _) 0]
      rfl
    · rw [unwrap, getProp_own h2t (findProp_propSet_self _ _ _) 0]
      rfl
  · intro h v x n hx hxf
    simp only [unwrap, hx]
    rw [if_neg (by rw [hxf]; simp)]

/-- Demonstration heap for C5: the raw demonstration trait at address 2
and two fresh wrapper functions at addresses 3 and 4. -/
def demoWrap : Heap :=
  (newFn (newFn (newFn initHeap (.userTrait 7)).1 (.bareBody 2)).1 (.bareBody 2)).1

/-- Witness for C5 at a concrete configuration: wrapping the raw trait 2
with wrapper 3 and then wrapper 4 still unwraps to 2, and `unwrap` on the
never-wrapped function 2 returns it unchanged. -/
theorem claim5_witness :
    (∃ h1 u, wrap demoWrap 2 3 3 = (h1, .ok (.addr 3)) ∧
      unwrap h1 (.addr 3) (3 + 2) = .ok u ∧ unwrap h1 (.addr 2) (3 + 1) = .ok u) ∧
    unwrap (setProto (setProp (setProto demoWrap 3 (.addr 2)) 2 .wrappedTrait (.addr 2)) 4
      (.addr 3)) (.addr 4) 3 = .ok (.addr 2) ∧
    unwrap demoWrap (.addr 2) 2 = .ok (.addr 2) :=
  ⟨claim5_wrap_unwrap.1 demoWrap 2 3
      { proto := .addr 1, props := [], body := some (.userTrait 7), entries := [] }
      { proto := .addr 1, props := [], body := some (.bareBody 2), entries := [] }
      3 .undef (by decide) (by decide) (by decide) (by decide) (by decide),
    (claim5_wrap_unwrap.2.1 demoWrap 2 3 4
      { proto := .addr 1, props := [], body := some (.userTrait 7), entries := [] }
      { proto := .addr 1, props := [], body := some (.bareBody 2), entries := [] }
      { proto := .addr 1, props := [], body := some (.bareBody 2), entries := [] }
      3 (by decide) (by decide) (by decide) (by decide) (by decide) (by decide)
      (by decide) (by decide) (by decide)).2.2.1,
    claim5_wrap_unwrap.2.2 demoWrap (.addr 2) .undef 2 (by decide) (by decide)⟩

/-! ## Claim C1 -/

theorem freshApp_agrees (hc : Heap) (b k : Nat) (pv : Val) :
    Agrees hc (freshApp hc b k pv) := by
  intro a o ha
  rw [freshApp_objAt_lt (objAt_valid ha)]
  exact ha

theorem findProp_protoKey (a : Nat) :
    findProp [(Key.prototypeKey, Val.addr a)] .prototypeKey = some (.addr a) := rfl

theorem bare_call {h : Heap} {w t : Nat} {ow : Obj} (hw : h.objAt w = some ow)
    (hb : ow.body = some (.bareBody t)) (s : Val) (fuel : Nat) :
    callFn h (.addr w) s (fuel + 1) =
      applyRun (fun h' f' a' => callFn h' f' a' fuel) h s (.addr t) fuel := by
  simp only [callFn, hw, hb]

/-- C1, part 1 machinery: evaluation of `apply(B, T)` for a raw user trait
whose back-reference lookup is falsy. -/
theorem applyT_raw_spec {h : Heap} {t b k : Nat} {ot ob : Obj} {n : Nat} {xw pv : Val}
    {m : Nat} (hot : h.objAt t = some ot) (hbody : ot.body = some (.userTrait k))
    (hob : h.objAt b = some ob) (hpv : findProp ob.props .prototypeKey = some pv)
    (hok : okProto pv = true)
    (hxw : getProp h (.addr t) .wrappedTrait n = .ok xw) (hxwf : truthy xw = false)
    (hnm : n ≤ m + 1 + 1) :
    applyT h (.addr b) (.addr t) (m + 1 + 1) =
      (setProp (freshApp h b k pv) h.objs.length .appliedTrait (.addr t),
        .ok (.addr (h.objs.length + 1))) := by
  have hcall := userTrait_call_spec hot hbody hob hpv hok m
  have hagr1 := freshApp_agrees h b k pv
  have hxw1 : getProp (freshApp h b k pv) (.addr t) .wrappedTrait (m + 1 + 1) = .ok xw :=
    getProp_mono (getProp_agrees hagr1 hxw) hnm
  have hunw : unwrap (freshApp h b k pv) (.addr t) (m + 1 + 1) = .ok (.addr t) := by
    simp only [unwrap, hxw1]
    rw [if_neg (by rw [hxwf]; simp)]
  have hclsP : getProp (freshApp h b k pv) (.addr (h.objs.length + 1)) .prototypeKey
      (m + 1 + 1) = .ok (.addr h.objs.length) :=
    getProp_own (freshApp_objAt_class h b k pv) (findProp_protoKey _) (m + 1)
  simp only [applyT, applyRun, hcall, hclsP, hunw]

/-- C1: the marker stored by `apply` and the value compared by
`isTraitificationOf` are both the unwrapped trait.
Part 1: for a raw user trait `t` (falsy back-reference) and any base `b`,
`isTraitificationOf(apply(b, t).prototype, t)` is true, and is false for
any trait value whose unwrapped form differs from `t`'s.
Part 2: for two wrapper functions around the same original trait `t` —
functions applying via `apply` whose back-reference lookups both resolve
to `t` —, `isTraitificationOf(apply(b, w1).prototype, w2)` is still
true. -/
theorem claim1_marker_unwrapped :
    (∀ (h : Heap) (t b k : Nat) (ot ob : Obj) (n : Nat) (xw pv : Val) (m : Nat),
      h.objAt t = some ot → ot.body = some (.userTrait k) →
      h.objAt b = some ob → findProp ob.props .prototypeKey = some pv →
      okProto pv = true →
      getProp h (.addr t) .wrappedTrait n = .ok xw → truthy xw = false →
      n ≤ m + 1 + 1 →
      ∃ h1, applyT h (.addr b) (.addr t) (m + 1 + 1) =
          (h1, .ok (.addr (h.objs.length + 1))) ∧
        getProp h1 (.addr (h.objs.length + 1)) .prototypeKey 1 =
          .ok (.addr h.objs.length) ∧
        isTraitificationOf h1 (.addr h.objs.length) (.addr t) (n + 1) = .ok true ∧
        (∀ (uv u : Val) (j : Nat), unwrap h1 uv j = .ok u → u ≠ .addr t →
          isTraitificationOf h1 (.addr h.objs.length) uv j = .ok false))
    ∧
    (∀ (h : Heap) (t b k w1 w2 : Nat) (ot ob o1 : Obj) (n1 n2 n3 : Nat) (pv : Val)
        (m : Nat),
      h.objAt t = some ot → ot.body = some (.userTrait k) →
      h.objAt w1 = some o1 → o1.body = some (.bareBody t) →
      h.objAt b = some ob → findProp ob.props .prototypeKey = some pv →
      okProto pv = true →
      getProp h (.addr w1) .wrappedTrait n1 = .ok (.addr t) →
      getProp h (.addr w2) .wrappedTrait n2 = .ok (.addr t) →
      getProp h (.addr t) .wrappedTrait n3 = .ok (.addr t) →
      n1 ≤ m → n3 ≤ m →
      ∃ h2, applyT h (.addr b) (.addr w1) (m + 1 + 1 + 1) =
          (h2, .ok (.addr (h.objs.length + 1))) ∧
        isTraitificationOf h2 (.addr h.objs.length) (.addr w2) n2 = .ok true) := by
  constructor
  · intro h t b k ot ob n xw pv m hot hbody hob hpv hok hxw hxwf hnm
    have happ := applyT_raw_spec hot hbody hob hpv hok hxw hxwf hnm
    have hagr1 := freshApp_agrees h b k pv
    have hagr2 : Agrees h (setProp (freshApp h b k pv) h.objs.length .appliedTrait
        (.addr t)) := agrees_setProp_fresh hagr1 (Nat.le_refl _) _ _
    have hLne : h.objs.length ≠ h.objs.length + 1 := by omega
    have hcls1 : (setProp (freshApp h b k pv) h.objs.length .appliedTrait
        (.addr t)).objAt (h.objs.length + 1) =
        some { proto := .addr b, props := [(.prototypeKey, .addr h.objs.length)],
               body := some .classCons, entries := [] } := by
      rw [objAt_setProp_ne _ _ _ _ hLne]
      exact freshApp_objAt_class h b k pv
    have hPat : (setProp (freshApp h b k pv) h.objs.length .appliedTrait
        (.addr t)).objAt h.objs.length =
        some { proto := pv, props := (propSet [] .appliedTrait (.addr t)), body := none,
               entries := [] } := objAt_setProp_self (freshApp_objAt_proto h b k pv) _ _
    have hown : getOwn (setProp (freshApp h b k pv) h.objs.length .appliedTrait
        (.addr t)) h.objs.length .appliedTrait = some (.addr t) := by
      rw [getOwn, hPat]
      exact findProp_propSet_self _ _ _
    refine ⟨setProp (freshApp h b k pv) h.objs.length .appliedTrait (.addr t), happ,
      getProp_own hcls1 (findProp_protoKey _) 0, ?_, ?_⟩
    · have hxw2 : getProp (setProp (freshApp h b k pv) h.objs.length .appliedTrait
          (.addr t)) (.addr t) .wrappedTrait (n + 1) = .ok xw :=
        getProp_mono (getProp_agrees hagr2 hxw) (Nat.le_succ n)
      rw [isTraitificationOf_addr, hown]
      simp only [unwrap, hxw2]
      rw [if_neg (by rw [hxwf]; simp)]
      simp
    · intro uv u j hu hne
      rw [isTraitificationOf_addr, hown]
      simp only [hu]
      simp [decide_eq_false (show ¬(Val.addr t = u) from fun hh => hne hh.symm)]
  · intro h t b k w1 w2 ot ob o1 n1 n2 n3 pv m hot hbody hw1 hbody1 hob hpv hok hn1 hn2
      hn3 hle1 hle3
    have hcallT := userTrait_call_spec hot hbody hob hpv hok m
    have hagr1 := freshApp_agrees h b k pv
    have hxwT : getProp (freshApp h b k pv) (.addr t) .wrappedTrait (m + 1 + 1) =
        .ok (.addr t) :=
      getProp_mono (getProp_agrees hagr1 hn3) (by omega)
    have hunwT : unwrap (freshApp h b k pv) (.addr t) (m + 1 + 1) = .ok (.addr t) := by
      simp only [unwrap, hxwT]
      rfl
    have hclsP : getProp (freshApp h b k pv) (.addr (h.objs.length + 1)) .prototypeKey
        (m + 1 + 1) = .ok (.addr h.objs.length) :=
      getProp_own (freshApp_objAt_class h b k pv) (findProp_protoKey _) (m + 1)
    -- the inner `apply(superclass, trait)` run by the bare wrapper's body
    have hinner : callFn h (.addr w1) (.addr b) (m + 1 + 1 + 1) =
        (setProp (freshApp h b k pv) h.objs.length .appliedTrait (.addr t),
          .ok (.addr (h.objs.length + 1))) := by
      rw [bare_call hw1 hbody1]
      simp only [applyRun, hcallT, hclsP, hunwT]
    have hagr2 : Agrees h (setProp (freshApp h b k pv) h.objs.length .appliedTrait
        (.addr t)) := agrees_setProp_fresh hagr1 (Nat.le_refl _) _ _
    have hLne : h.objs.length ≠ h.objs.length + 1 := by omega
    have hcls1 : (setProp (freshApp h b k pv) h.objs.length .appliedTrait
        (.addr t)).objAt (h.objs.length + 1) =
        some { proto := .addr b, props := [(.prototypeKey, .addr h.objs.length)],
               body := some .classCons, entries := [] } := by
      rw [objAt_setProp_ne _ _ _ _ hLne]
      exact freshApp_objAt_class h b k pv
    have hclsP2 : getProp (setProp (freshApp h b k pv) h.objs.length .appliedTrait
        (.addr t)) (.addr (h.objs.length + 1)) .prototypeKey (m + 1 + 1 + 1) =
        .ok (.addr h.objs.length) :=
      getProp_own hcls1 (findProp_protoKey _) (m + 1 + 1)
    have hunwW1 : unwrap (setProp (freshApp h b k pv) h.objs.length .appliedTrait
        (.addr t)) (.addr w1) (m + 1 + 1 + 1) = .ok (.addr t) := by
      have := getProp_mono (getProp_agrees hagr2 hn1) (show n1 ≤ m + 1 + 1 + 1 by omega)
      simp only [unwrap, this]
      rfl
    have happ : applyT h (.addr b) (.addr w1) (m + 1 + 1 + 1) =
        (setProp (setProp (freshApp h b k pv) h.objs.length .appliedTrait (.addr t))
          h.objs.length .appliedTrait (.addr t), .ok (.addr (h.objs.length + 1))) := by
      simp only [applyT, applyRun, hinner, hclsP2, hunwW1]
    have hPat1 : (setProp (freshApp h b k pv) h.objs.length .appliedTrait
        (.addr t)).objAt h.objs.length =
        some { proto := pv, props := (propSet [] .appliedTrait (.addr t)), body := none,
               entries := [] } := objAt_setProp_self (freshApp_objAt_proto h b k pv) _ _
    have hPat2 : (setProp (setProp (freshApp h b k pv) h.objs.length .appliedTrait
        (.addr t)) h.objs.length .appliedTrait (.addr t)).objAt h.objs.length =
        some { proto := pv,
               props := (propSet (propSet [] .appliedTrait (.addr t)) .appliedTrait
                 (.addr t)), body := none, entries := [] } :=
      objAt_setProp_self hPat1 _ _
    have hown2 : getOwn (setProp (setProp (freshApp h b k pv) h.objs.length .appliedTrait
        (.addr t)) h.objs.length .appliedTrait (.addr t)) h.objs.length .appliedTrait =
        some (.addr t) := by
      rw [getOwn, hPat2]
      exact findProp_propSet_self _ _ _
    have hagr3 : Agrees h (setProp (setProp (freshApp h b k pv) h.objs.length
        .appliedTrait (.addr t)) h.objs.length .appliedTrait (.addr t)) := by
      refine agrees_setProp_fresh hagr2 ?_ _ _
      exact Nat.le_refl _
    refine ⟨_, happ, ?_⟩
    have hxwW2 : getProp (setProp (setProp (freshApp h b k pv) h.objs.length
        .appliedTrait (.addr t)) h.objs.length .appliedTrait (.addr t)) (.addr w2)
        .wrappedTrait n2 = .ok (.addr t) := getProp_agrees hagr3 hn2
    rw [isTraitificationOf_addr, hown2]
    simp only [unwrap, hxwW2]
    simp [truthy]

/-- The wrap-twice configuration: both wrapper functions (3 and 4) carry the
raw trait 2 as prototype, the back-reference on 2 points to itself, and a
root base class sits at 6 (prototype object 5). -/
def demoC1 : Heap :=
  (newRootClass (setProp (setProto (setProto demoWrap 3 (.addr 2)) 4 (.addr 2)) 2
    .wrappedTrait (.addr 2))).1

/-- Witness for C1 at a concrete configuration: applying the raw trait 2 to
base 4 yields a class (address 6) whose prototype surface (address 5)
passes `isTraitificationOf` for 2 and fails it for anything unwrapping
elsewhere; applying wrapper 3 still marks the surface so that the sibling
wrapper 4 passes. -/
theorem claim1_witness :
    (∃ h1, applyT demoHeap (.addr 4) (.addr 2) (0 + 1 + 1) = (h1, .ok (.addr 6)) ∧
      getProp h1 (.addr 6) .prototypeKey 1 = .ok (.addr 5) ∧
      isTraitificationOf h1 (.addr 5) (.addr 2) (2 + 1) = .ok true ∧
      (∀ (uv u : Val) (j : Nat), unwrap h1 uv j = .ok u → u ≠ .addr 2 →
        isTraitificationOf h1 (.addr 5) uv j = .ok false)) ∧
    (∃ h2, applyT demoC1 (.addr 6) (.addr 3) (2 + 1 + 1 + 1) = (h2, .ok (.addr 8)) ∧
      isTraitificationOf h2 (.addr 7) (.addr 4) 2 = .ok true) :=
  ⟨claim1_marker_unwrapped.1 demoHeap 2 4 7
      { proto := .addr 1, props := [], body := some (.userTrait 7), entries := [] }
      { proto := .addr 1, props := [(.prototypeKey, .addr 3)], body := some .classCons,
        entries := [] }
      2 .undef (.addr 3) 0 (by decide) (by decide) (by decide) (by decide) (by decide)
      (by decide) (by decide) (by decide),
    claim1_marker_unwrapped.2 demoC1 2 6 7 3 4
      { proto := .addr 1, props := [(.wrappedTrait, .addr 2)], body := some (.userTrait 7),
        entries := [] }
      { proto := .addr 1, props := [(.prototypeKey, .addr 5)], body := some .classCons,
        entries := [] }
      { proto := .addr 2, props := [], body := some (.bareBody 2), entries := [] }
      2 2 1 (.addr 5) 2 (by decide) (by decide) (by decide) (by decide) (by decide)
      (by decide) (by decide) (by decide) (by decide) (by decide) (by decide) (by decide)⟩

/-! ## Claim C2 -/

/-- The `j`-th behaviour surface in the prototype chain starting at `v`. -/
def nthSurface (h : Heap) (v : Val) : Nat → Val
  | 0 => v
  | j + 1 => protoOfV h (nthSurface h v j)

/-- Surface `v` carries the engine marker for unwrapped trait `u`. -/
def markerAt (h : Heap) (v u : Val) : Bool :=
  match v with
  | .addr a =>
    match getOwn h a .appliedTrait with
    | some x => decide (x = u)
    | none => false
  | _ => false

/-- The walk's stopping condition (`it != null` fails). -/
def isNullish : Val → Bool
  | .undef => true
  | .nullV => true
  | _ => false

theorem protoOfV_nullish {h : Heap} {v : Val} (hv : isNullish v = true) :
    protoOfV h v = v := by
  match v with
  | .undef => rfl
  | .nullV => rfl
  | .bool b => exact absurd hv (by simp [isNullish])
  | .addr a => exact absurd hv (by simp [isNullish])

theorem nthSurface_succ_front (h : Heap) (v : Val) (j : Nat) :
    nthSurface h v (j + 1) = nthSurface h (protoOfV h v) j := by
  induction j with
  | zero => rfl
  | succ j ih => rw [nthSurface, ih]; rfl

theorem markerAt_nonaddr {h : Heap} {v u : Val} (hv : ∀ a, v ≠ .addr a) :
    markerAt h v u = false := by
  match v with
  | .undef => rfl
  | .nullV => rfl
  | .bool b => rfl
  | .addr a => exact absurd rfl (hv a)

/-- C2, part (b) machinery: with enough fuel, `expresses` computes whether
any of the first `L` surfaces of the chain carries the marker of the
trait's unwrapped form, provided the chain goes nullish within `L`
steps. -/
theorem expresses_chain_spec (h : Heap) (tv u : Val) (fu : Nat) :
    ∀ (L : Nat) (v : Val), unwrap h tv fu = .ok u →
      isNullish (nthSurface h v L) = true →
      expresses h v tv (fu + L + 1) =
        .ok ((List.range L).any fun j => markerAt h (nthSurface h v j) u) := by
  intro L
  induction L with
  | zero =>
    intro v _ hL
    match v with
    | .undef => simp [expresses]
    | .nullV => simp [expresses]
    | .bool b => exact absurd hL (by simp [nthSurface, isNullish])
    | .addr a => exact absurd hL (by simp [nthSurface, isNullish])
  | succ L ih =>
    intro v hu hL
    have hLfront : isNullish (nthSurface h (protoOfV h v) L) = true := by
      rw [← nthSurface_succ_front]; exact hL
    have hrange : (List.range (L + 1)).any (fun j => markerAt h (nthSurface h v j) u) =
        (markerAt h v u ||
          (List.range L).any fun j => markerAt h (nthSurface h (protoOfV h v) j) u) := by
      rw [List.range_succ_eq_map, List.any_cons, List.any_map]
      have hp : ((fun j => markerAt h (nthSurface h v j) u) ∘ Nat.succ) =
          (fun j => markerAt h (nthSurface h (protoOfV h v) j) u) := by
        funext j
        show markerAt h (nthSurface h v (Nat.succ j)) u = _
        rw [nthSurface_succ_front]
      rw [hp]
      rfl
    match v with
    | .undef =>
      have hsame : ∀ j, nthSurface h .undef j = .undef := by
        intro j
        induction j with
        | zero => rfl
        | succ j ihj => rw [nthSurface, ihj]; rfl
      have : (List.range (L + 1)).any (fun j => markerAt h (nthSurface h .undef j) u) =
          false := by
        simp only [hsame]
        simp [markerAt]
      rw [this]
      simp [expresses]
    | .nullV =>
      have hsame : ∀ j, nthSurface h .nullV j = .nullV := by
        intro j
        induction j with
        | zero => rfl
        | succ j ihj => rw [nthSurface, ihj]; rfl
      have : (List.range (L + 1)).any (fun j => markerAt h (nthSurface h .nullV j) u) =
          false := by
        simp only [hsame]
        simp [markerAt]
      rw [this]
      simp [expresses]
    | .bool bb =>
      rw [hrange]
      have hmk : markerAt h (.bool bb) u = false := rfl
      rw [hmk, Bool.false_or]
      have hstep : expresses h (.bool bb) tv (fu + (L + 1) + 1) =
          expresses h (protoOfV h (.bool bb)) tv (fu + L + 1) := by
        have : fu + (L + 1) + 1 = (fu + L + 1) + 1 := by omega
        rw [this, expresses_bool]
        rfl
      rw [hstep]
      exact ih (protoOfV h (.bool bb)) hu hLfront
    | .addr a =>
      rw [hrange]
      have heq : fu + (L + 1) + 1 = (fu + L + 1) + 1 := by omega
      rw [heq, expresses_addr]
      match hOwn : getOwn h a .appliedTrait with
      | none =>
        have hit : isTraitificationOf h (.addr a) tv (fu + L + 1) = .ok false := by
          rw [isTraitificationOf_addr, hOwn]
        rw [hit]
        have hmk : markerAt h (.addr a) u = false := by
          rw [markerAt, hOwn]
        rw [hmk, Bool.false_or]
        exact ih (protoOfV h (.addr a)) hu hLfront
      | some x =>
        have hu' : unwrap h tv (fu + L + 1) = .ok u := unwrap_mono hu (by omega)
        have hit : isTraitificationOf h (.addr a) tv (fu + L + 1) =
            .ok (decide (x = u)) := by
          rw [isTraitificationOf_addr, hOwn, hu']
        rw [hit]
        have hmk : markerAt h (.addr a) u = decide (x = u) := by
          rw [markerAt, hOwn]
        rw [hmk]
        match hxu : decide (x = u) with
        | true => simp
        | false =>
          rw [Bool.false_or]
          exact ih (protoOfV h (.addr a)) hu hLfront

/-- C2: a fresh instance of `apply(B, T)` expresses `T`; in general
`expresses(value, T)` walks the prototype chain from `value`, returning
true exactly when some surface within the (terminating) chain carries the
marker of `T`'s unwrapped form, and false when the chain goes nullish
without a match. -/
theorem claim2_expresses :
    (∀ (h : Heap) (t b k : Nat) (ot ob : Obj) (n : Nat) (xw pv : Val) (m : Nat),
      h.objAt t = some ot → ot.body = some (.userTrait k) →
      h.objAt b = some ob → findProp ob.props .prototypeKey = some pv →
      okProto pv = true →
      getProp h (.addr t) .wrappedTrait n = .ok xw → truthy xw = false →
      n ≤ m + 1 + 1 →
      ∃ h1 h2, applyT h (.addr b) (.addr t) (m + 1 + 1) =
          (h1, .ok (.addr (h.objs.length + 1))) ∧
        construct h1 (.addr (h.objs.length + 1)) 1 =
          (h2, .ok (.addr (h.objs.length + 2))) ∧
        expresses h2 (.addr (h.objs.length + 2)) (.addr t) (n + 1 + 1) = .ok true)
    ∧
    (∀ (h : Heap) (tv u v : Val) (fu L : Nat),
      unwrap h tv fu = .ok u →
      isNullish (nthSurface h v L) = true →
      expresses h v tv (fu + L + 1) =
        .ok ((List.range L).any fun j => markerAt h (nthSurface h v j) u)) := by
  constructor
  · intro h t b k ot ob n xw pv m hot hbody hob hpv hok hxw hxwf hnm
    have happ := applyT_raw_spec hot hbody hob hpv hok hxw hxwf hnm
    have hagr1 := freshApp_agrees h b k pv
    have hagr2 : Agrees h (setProp (freshApp h b k pv) h.objs.length .appliedTrait
        (.addr t)) := agrees_setProp_fresh hagr1 (Nat.le_refl _) _ _
    have hLne : h.objs.length ≠ h.objs.length + 1 := by omega
    have hcls1 : (setProp (freshApp h b k pv) h.objs.length .appliedTrait
        (.addr t)).objAt (h.objs.length + 1) =
        some { proto := .addr b, props := [(.prototypeKey, .addr h.objs.length)],
               body := some .classCons, entries := [] } := by
      rw [objAt_setProp_ne _ _ _ _ hLne]
      exact freshApp_objAt_class h b k pv
    have hPat : (setProp (freshApp h b k pv) h.objs.length .appliedTrait
        (.addr t)).objAt h.objs.length =
        some { proto := pv, props := (propSet [] .appliedTrait (.addr t)), body := none,
               entries := [] } := objAt_setProp_self (freshApp_objAt_proto h b k pv) _ _
    have hlen1 : (setProp (freshApp h b k pv) h.objs.length .appliedTrait
        (.addr t)).objs.length = h.objs.length + 2 := by
      rw [setProp_length, freshApp_length]
    have hcons : construct (setProp (freshApp h b k pv) h.objs.length .appliedTrait
        (.addr t)) (.addr (h.objs.length + 1)) 1 =
        ((allocObj (setProp (freshApp h b k pv) h.objs.length .appliedTrait (.addr t))
          { proto := .addr h.objs.length }).1, .ok (.addr (h.objs.length + 2))) := by
      have hbA : (setProp (freshApp h b k pv) h.objs.length .appliedTrait
          (.addr t)).bodyAt (h.objs.length + 1) = some .classCons := by
        rw [Heap.bodyAt, hcls1]
        rfl
      have hgp := getProp_own hcls1 (findProp_protoKey _) 0
      simp only [construct, hbA, hgp, allocObj, hlen1]
    refine ⟨_, _, happ, hcons, ?_⟩
    have hagr3 : Agrees h (allocObj (setProp (freshApp h b k pv) h.objs.length
        .appliedTrait (.addr t)) { proto := .addr h.objs.length }).1 := by
      intro a o ha
      rw [objAt_alloc_old (Nat.lt_of_lt_of_le (objAt_valid ha) (by rw [hlen1]; omega))]
      exact hagr2 a o ha
    have hinst : (allocObj (setProp (freshApp h b k pv) h.objs.length .appliedTrait
        (.addr t)) { proto := .addr h.objs.length }).1.objAt (h.objs.length + 2) =
        some ({ proto := .addr h.objs.length } : Obj) := by
      have := objAt_alloc_new (h := setProp (freshApp h b k pv) h.objs.length
        .appliedTrait (.addr t)) (o := ({ proto := .addr h.objs.length } : Obj))
      rw [hlen1] at this
      exact this
    have hPat3 : (allocObj (setProp (freshApp h b k pv) h.objs.length .appliedTrait
        (.addr t)) { proto := .addr h.objs.length }).1.objAt h.objs.length =
        some { proto := pv, props := (propSet [] .appliedTrait (.addr t)), body := none,
               entries := [] } := by
      rw [objAt_alloc_old (by rw [hlen1]; omega)]
      exact hPat
    have hxw3 : getProp (allocObj (setProp (freshApp h b k pv) h.objs.length
        .appliedTrait (.addr t)) { proto := .addr h.objs.length }).1 (.addr t)
        .wrappedTrait n = .ok xw := getProp_agrees hagr3 hxw
    rw [expresses_addr]
    have hit1 : isTraitificationOf (allocObj (setProp (freshApp h b k pv) h.objs.length
        .appliedTrait (.addr t)) { proto := .addr h.objs.length }).1
        (.addr (h.objs.length + 2)) (.addr t) (n + 1) = .ok false := by
      rw [isTraitificationOf_addr]
      rw [show getOwn (allocObj (setProp (freshApp h b k pv) h.objs.length .appliedTrait
        (.addr t)) { proto := .addr h.objs.length }).1 (h.objs.length + 2)
        .appliedTrait = none from by rw [getOwn, hinst]; rfl]
    rw [hit1]
    have hproto : protoOfV (allocObj (setProp (freshApp h b k pv) h.objs.length
        .appliedTrait (.addr t)) { proto := .addr h.objs.length }).1
        (.addr (h.objs.length + 2)) = .addr h.objs.length := by
      rw [protoOfV, hinst]
    rw [hproto, expresses_addr]
    have hown3 : getOwn (allocObj (setProp (freshApp h b k pv) h.objs.length
        .appliedTrait (.addr t)) { proto := .addr h.objs.length }).1 h.objs.length
        .appliedTrait = some (.addr t) := by
      rw [getOwn, hPat3]
      exact findProp_propSet_self _ _ _
    have hunw3 : unwrap (allocObj (setProp (freshApp h b k pv) h.objs.length
        .appliedTrait (.addr t)) { proto := .addr h.objs.length }).1 (.addr t) n =
        .ok (.addr t) := by
      simp only [unwrap, hxw3]
      rw [if_neg (by rw [hxwf]; simp)]
    rw [show isTraitificationOf (allocObj (setProp (freshApp h b k pv) h.objs.length
        .appliedTrait (.addr t)) { proto := .addr h.objs.length }).1
        (.addr h.objs.length) (.addr t) n = .ok true from by
      rw [isTraitificationOf_addr, hown3, hunw3]; simp]
  · exact fun h tv u v fu L hu hL => expresses_chain_spec h tv u fu L v hu hL

/-- Witness for C2 at a concrete configuration: a fresh instance (address
7) of the class made by applying trait 2 to base 4 expresses trait 2, and
the chain walk on the marked surface (address 5, chain nullish after two
steps) evaluates to true. -/
theorem claim2_witness :
    (∃ h1 h2, applyT demoHeap (.addr 4) (.addr 2) (0 + 1 + 1) = (h1, .ok (.addr 6)) ∧
      construct h1 (.addr 6) 1 = (h2, .ok (.addr 7)) ∧
      expresses h2 (.addr 7) (.addr 2) (2 + 1 + 1) = .ok true) ∧
    expresses demoApplied (.addr 5) (.addr 2) (2 + 2 + 1) = .ok true :=
  ⟨claim2_expresses.1 demoHeap 2 4 7
      { proto := .addr 1, props := [], body := some (.userTrait 7), entries := [] }
      { proto := .addr 1, props := [(.prototypeKey, .addr 3)], body := some .classCons,
        entries := [] }
      2 .undef (.addr 3) 0 (by decide) (by decide) (by decide) (by decide) (by decide)
      (by decide) (by decide) (by decide),
    claim2_expresses.2 demoApplied (.addr 2) (.addr 2) (.addr 5) 2 2 (by decide)
      (by decide)⟩

/-! ## Claim C7 -/

/-- The nested composition `T_n(...(T_2(T_1(B))))`, written from the
spec's words: the head of the list is the outermost application, so the
last element is applied first, directly to the base.  This is the
spec-side form against which the builder's fold is compared. -/
def nestApply (h : Heap) (base : Val) (fuel : Nat) : List Val → Heap × Except JsErr Val
  | [] => (h, .ok base)
  | t :: outer =>
    match nestApply h base fuel outer with
    | (h1, .ok r) => callFn h1 t r fuel
    | (h1, .error e) => (h1, .error e)

theorem nestApply_nil (h : Heap) (base : Val) (fuel : Nat) :
    nestApply h base fuel [] = (h, .ok base) := rfl

theorem nestApply_cons (h : Heap) (base : Val) (fuel : Nat) (s : Val) (L : List Val) :
    nestApply h base fuel (s :: L) =
      (match nestApply h base fuel L with
       | (h1, .ok r) => callFn h1 s r fuel
       | (h1, .error e) => (h1, .error e)) := rfl

theorem nestApply_append (fuel : Nat) (t : Val) :
    ∀ (L : List Val) (h : Heap) (b : Val),
      nestApply h b fuel (L ++ [t]) =
        (match callFn h t b fuel with
         | (h1, .ok r) => nestApply h1 r fuel L
         | (h1, .error e) => (h1, .error e)) := by
  intro L
  induction L with
  | nil =>
    intro h b
    rw [List.nil_append, nestApply_cons, nestApply_nil]
    show callFn h t b fuel = _
    have key : ∀ (p : Heap × Except JsErr Val),
        p = (match p with
             | (h1, .ok r) => nestApply h1 r fuel []
             | (h1, .error e) => (h1, .error e)) := by
      rintro ⟨h1, r⟩
      match r with
      | .ok rv => rfl
      | .error e => rfl
    exact key _
  | cons s L ih =>
    intro h b
    rw [List.cons_append, nestApply_cons, ih]
    have key : ∀ (p : Heap × Except JsErr Val),
        (match (match p with
                | (h1, .ok r) => nestApply h1 r fuel L
                | (h1, .error e) => (h1, .error e)) with
         | (h1, .ok r) => callFn h1 s r fuel
         | (h1, .error e) => (h1, .error e)) =
        (match p with
         | (h1, .ok r) => nestApply h1 r fuel (s :: L)
         | (h1, .error e) => (h1, .error e)) := by
      rintro ⟨h1, r⟩
      match r with
      | .ok rv => rfl
      | .error e => rfl
    exact key _

theorem expressing_cons (h : Heap) (acc t : Val) (rest : List Val) (fuel : Nat) :
    TraitBuilder.expressing h ⟨acc⟩ (t :: rest) fuel =
      (match callFn h t acc fuel with
       | (h1, .error e) => (h1, .error e)
       | (h1, .ok r) => TraitBuilder.expressing h1 ⟨r⟩ rest fuel) := rfl

theorem expressing_nest (fuel : Nat) :
    ∀ (ts : List Val) (h : Heap) (acc : Val),
      TraitBuilder.expressing h ⟨acc⟩ ts fuel = nestApply h acc fuel ts.reverse := by
  intro ts
  induction ts with
  | nil => intro h acc; rfl
  | cons t rest ih =>
    intro h acc
    rw [expressing_cons, List.reverse_cons, nestApply_append]
    have key : ∀ (p : Heap × Except JsErr Val),
        (match p with
         | (h1, .error e) => (h1, .error e)
         | (h1, .ok r) => TraitBuilder.expressing h1 ⟨r⟩ rest fuel) =
        (match p with
         | (h1, .ok r) => nestApply h1 r fuel rest.reverse
         | (h1, .error e) => (h1, .error e)) := by
      rintro ⟨h1, r⟩
      match r with
      | .ok rv => exact ih h1 rv
      | .error e => rfl
    exact key _

/-- One bare-wrapper invocation on a base class: the wrapper's body runs
`apply(superclass, trait)`, marking the fresh prototype surface with the
raw trait's (already wrapped, self-resolving) identity. -/
theorem bareWrapped_call {h : Heap} {w t b k : Nat} {ow ot ob : Obj} {pv : Val}
    {n m : Nat} (hw : h.objAt w = some ow) (hwb : ow.body = some (.bareBody t))
    (hot : h.objAt t = some ot) (hbody : ot.body = some (.userTrait k))
    (hob : h.objAt b = some ob) (hpv : findProp ob.props .prototypeKey = some pv)
    (hok : okProto pv = true)
    (hwt : getProp h (.addr t) .wrappedTrait n = .ok (.addr t))
    (hn : n ≤ m + 1 + 1) :
    callFn h (.addr w) (.addr b) (m + 1 + 1 + 1) =
      (setProp (freshApp h b k pv) h.objs.length .appliedTrait (.addr t),
        .ok (.addr (h.objs.length + 1))) := by
  have hcallT := userTrait_call_spec hot hbody hob hpv hok m
  have hagr1 := freshApp_agrees h b k pv
  have hxwT : getProp (freshApp h b k pv) (.addr t) .wrappedTrait (m + 1 + 1) =
      .ok (.addr t) := getProp_mono (getProp_agrees hagr1 hwt) hn
  have hunwT : unwrap (freshApp h b k pv) (.addr t) (m + 1 + 1) = .ok (.addr t) := by
    simp only [unwrap, hxwT]
    rfl
  have hclsP : getProp (freshApp h b k pv) (.addr (h.objs.length + 1)) .prototypeKey
      (m + 1 + 1) = .ok (.addr h.objs.length) :=
    getProp_own (freshApp_objAt_class h b k pv) (findProp_protoKey _) (m + 1)
  rw [bare_call hw hwb]
  simp only [applyRun, hcallT, hclsP, hunwT]

/-- C7: the builder folds its trait list left-to-right, so
`Builder(B).expressing(T1, …, Tn)` is exactly the nested application with
`T1` innermost and `Tn` outermost; an absent base starts the fold from a
fresh empty root class; and for marking wrappers the resulting surface
chain has the last trait's surface closest to the final class and the
first trait's surface sitting directly on the base's prototype. -/
theorem claim7_builder_order :
    (∀ (h : Heap) (b : TraitBuilder) (ts : List Val) (fuel : Nat),
      TraitBuilder.expressing h b ts fuel = nestApply h b.superclass fuel ts.reverse)
    ∧
    (∀ (h : Heap) (ts : List Val) (fuel : Nat),
      superclassB h .undef = ((newRootClass h).1, ⟨.addr (h.objs.length + 1)⟩) ∧
      (newRootClass h).1.objAt (h.objs.length + 1) =
        some { proto := .addr 1, props := [(.prototypeKey, .addr h.objs.length)],
               body := some .classCons, entries := [] } ∧
      (newRootClass h).1.objAt h.objs.length = some ({ proto := .nullV } : Obj) ∧
      traits h ts fuel =
        nestApply (newRootClass h).1 (.addr (h.objs.length + 1)) fuel ts.reverse)
    ∧
    (∀ (h : Heap) (b w1 w2 t1 t2 k1 k2 : Nat) (ob ow1 ow2 ot1 ot2 : Obj) (pv : Val)
        (n1 n2 m : Nat),
      h.objAt b = some ob → findProp ob.props .prototypeKey = some pv →
      okProto pv = true →
      h.objAt w1 = some ow1 → ow1.body = some (.bareBody t1) →
      h.objAt w2 = some ow2 → ow2.body = some (.bareBody t2) →
      h.objAt t1 = some ot1 → ot1.body = some (.userTrait k1) →
      h.objAt t2 = some ot2 → ot2.body = some (.userTrait k2) →
      getProp h (.addr t1) .wrappedTrait n1 = .ok (.addr t1) →
      getProp h (.addr t2) .wrappedTrait n2 = .ok (.addr t2) →
      n1 ≤ m → n2 ≤ m →
      ∃ h', TraitBuilder.expressing h ⟨.addr b⟩ [.addr w1, .addr w2] (m + 1 + 1 + 1) =
          (h', .ok (.addr (h.objs.length + 3))) ∧
        getOwn h' (h.objs.length + 3) .prototypeKey = some (.addr (h.objs.length + 2)) ∧
        getOwn h' (h.objs.length + 2) .appliedTrait = some (.addr t2) ∧
        (∃ o2, h'.objAt (h.objs.length + 2) = some o2 ∧
          o2.proto = .addr h.objs.length) ∧
        getOwn h' h.objs.length .appliedTrait = some (.addr t1) ∧
        (∃ o1, h'.objAt h.objs.length = some o1 ∧ o1.proto = pv)) := by
  refine ⟨?_, ?_, ?_⟩
  · intro h b ts fuel
    exact expressing_nest fuel ts h b.superclass
  · intro h ts fuel
    have hc2 : (newRootClass h).2 = h.objs.length + 1 := by
      show (allocObj h { proto := .nullV }).1.objs.length = h.objs.length + 1
      exact alloc_length _ _
    have hA : superclassB h .undef = ((newRootClass h).1, ⟨.addr (newRootClass h).2⟩) :=
      rfl
    rw [hc2] at hA
    have h1l : (allocObj h ({ proto := .nullV } : Obj)).1.objs.length =
        h.objs.length + 1 := alloc_length _ _
    have hB : (newRootClass h).1.objAt (h.objs.length + 1) =
        some { proto := .addr 1, props := [(.prototypeKey, .addr h.objs.length)],
               body := some .classCons, entries := [] } := by
      have := objAt_alloc_new (allocObj h ({ proto := .nullV } : Obj)).1
        { proto := .addr 1, props := [(.prototypeKey, .addr h.objs.length)],
          body := some .classCons, entries := [] }
      rw [h1l] at this
      exact this
    have hC : (newRootClass h).1.objAt h.objs.length =
        some ({ proto := .nullV } : Obj) := by
      have hlt : h.objs.length < (allocObj h ({ proto := .nullV } : Obj)).1.objs.length := by
        rw [h1l]; omega
      have h2 := objAt_alloc_old hlt
        ({ proto := .addr 1, props := [(.prototypeKey, .addr h.objs.length)],
           body := some .classCons, entries := [] } : Obj)
      rw [objAt_alloc_new] at h2
      exact h2
    refine ⟨hA, hB, hC, ?_⟩
    have hT0 : traits h ts fuel =
        TraitBuilder.expressing (superclassB h .undef).1 (superclassB h .undef).2 ts
          fuel := rfl
    rw [hA] at hT0
    rw [hT0]
    exact expressing_nest fuel ts (newRootClass h).1 (.addr (h.objs.length + 1))
  · intro h b w1 w2 t1 t2 k1 k2 ob ow1 ow2 ot1 ot2 pv n1 n2 m hob hpv hok hw1 hwb1 hw2
      hwb2 hot1 hbody1 hot2 hbody2 hwt1 hwt2 hle1 hle2
    have hc1 : callFn h (.addr w1) (.addr b) (m + 1 + 1 + 1) =
        (setProp (freshApp h b k1 pv) h.objs.length .appliedTrait (.addr t1),
          .ok (.addr (h.objs.length + 1))) :=
      bareWrapped_call hw1 hwb1 hot1 hbody1 hob hpv hok hwt1 (by omega)
    have hagrH1 : Agrees h (setProp (freshApp h b k1 pv) h.objs.length .appliedTrait
        (.addr t1)) := agrees_setProp_fresh (freshApp_agrees h b k1 pv) (Nat.le_refl _) _ _
    have hH1len : (setProp (freshApp h b k1 pv) h.objs.length .appliedTrait
        (.addr t1)).objs.length = h.objs.length + 2 := by
      rw [setProp_length, freshApp_length]
    have hH1cls : (setProp (freshApp h b k1 pv) h.objs.length .appliedTrait
        (.addr t1)).objAt (h.objs.length + 1) =
        some { proto := .addr b, props := [(.prototypeKey, .addr h.objs.length)],
               body := some .classCons, entries := [] } := by
      rw [objAt_setProp_ne _ _ _ _ (by omega)]
      exact freshApp_objAt_class h b k1 pv
    have hwt2' : getProp (setProp (freshApp h b k1 pv) h.objs.length .appliedTrait
        (.addr t1)) (.addr t2) .wrappedTrait n2 = .ok (.addr t2) :=
      getProp_agrees hagrH1 hwt2
    have hc2 := bareWrapped_call (hagrH1 _ _ hw2) hwb2 (hagrH1 _ _ hot2) hbody2 hH1cls
      (findProp_protoKey _) (by rfl) hwt2' (show n2 ≤ m + 1 + 1 by omega)
    rw [hH1len] at hc2
    have hrun : TraitBuilder.expressing h ⟨.addr b⟩ [.addr w1, .addr w2]
        (m + 1 + 1 + 1) =
        (setProp (freshApp (setProp (freshApp h b k1 pv) h.objs.length .appliedTrait
          (.addr t1)) (h.objs.length + 1) k2 (.addr h.objs.length)) (h.objs.length + 2)
          .appliedTrait (.addr t2), .ok (.addr (h.objs.length + 3))) := by
      rw [expressing_cons, hc1]
      show TraitBuilder.expressing (setProp (freshApp h b k1 pv) h.objs.length
        .appliedTrait (.addr t1)) ⟨.addr (h.objs.length + 1)⟩ [.addr w2]
        (m + 1 + 1 + 1) = _
      rw [expressing_cons, hc2]
      rfl
    have hP2base : (freshApp (setProp (freshApp h b k1 pv) h.objs.length .appliedTrait
        (.addr t1)) (h.objs.length + 1) k2 (.addr h.objs.length)).objAt
        (h.objs.length + 2) = some ({ proto := .addr h.objs.length } : Obj) := by
      have := freshApp_objAt_proto (setProp (freshApp h b k1 pv) h.objs.length
        .appliedTrait (.addr t1)) (h.objs.length + 1) k2 (.addr h.objs.length)
      rw [hH1len] at this
      exact this
    have hP2 : (setProp (freshApp (setProp (freshApp h b k1 pv) h.objs.length
        .appliedTrait (.addr t1)) (h.objs.length + 1) k2 (.addr h.objs.length))
        (h.objs.length + 2) .appliedTrait (.addr t2)).objAt (h.objs.length + 2) =
        some { proto := .addr h.objs.length,
               props := (propSet [] .appliedTrait (.addr t2)), body := none,
               entries := [] } := objAt_setProp_self hP2base _ _
    have hP1 : (setProp (freshApp (setProp (freshApp h b k1 pv) h.objs.length
        .appliedTrait (.addr t1)) (h.objs.length + 1) k2 (.addr h.objs.length))
        (h.objs.length + 2) .appliedTrait (.addr t2)).objAt h.objs.length =
        some { proto := pv, props := (propSet [] .appliedTrait (.addr t1)), body := none,
               entries := [] } := by
      rw [objAt_setProp_ne _ _ _ _ (by omega)]
      rw [freshApp_objAt_lt (by rw [hH1len]; omega)]
      exact objAt_setProp_self (freshApp_objAt_proto h b k1 pv) _ _
    have hClsF : (setProp (freshApp (setProp (freshApp h b k1 pv) h.objs.length
        .appliedTrait (.addr t1)) (h.objs.length + 1) k2 (.addr h.objs.length))
        (h.objs.length + 2) .appliedTrait (.addr t2)).objAt (h.objs.length + 3) =
        some { proto := .addr (h.objs.length + 1),
               props := [(.prototypeKey, .addr (h.objs.length + 2))],
               body := some .classCons, entries := [] } := by
      rw [objAt_setProp_ne _ _ _ _ (by omega)]
      have := freshApp_objAt_class (setProp (freshApp h b k1 pv) h.objs.length
        .appliedTrait (.addr t1)) (h.objs.length + 1) k2 (.addr h.objs.length)
      rw [hH1len] at this
      exact this
    refine ⟨_, hrun, ?_, ?_, ⟨_, hP2, rfl⟩, ?_, ⟨_, hP1, rfl⟩⟩
    · rw [getOwn, hClsF]
      rfl
    · rw [getOwn, hP2]
      exact findProp_propSet_self _ _ _
    · rw [getOwn, hP1]
      exact findProp_propSet_self _ _ _

/-- Two wrapped raw traits (2 and 3, self-resolving back-references), two
bare wrappers over them (4 and 5), and a root base class (7, prototype
object 6). -/
def demoBuild : Heap :=
  (newRootClass (setProp (setProp (newFn (newFn (newFn (newFn initHeap
    (.userTrait 11)).1 (.userTrait 12)).1 (.bareBody 2)).1 (.bareBody 3)).1
    2 .wrappedTrait (.addr 2)) 3 .wrappedTrait (.addr 3))).1

/-- Witness for C7 at a concrete configuration: the builder applied to the
trait list `[4, 5]` over base 7 yields the class 11 whose surface 10 is
marked by the second trait and sits on surface 8, marked by the first
trait, which sits on the base's own prototype 6. -/
theorem claim7_witness :
    ∃ h', TraitBuilder.expressing demoBuild ⟨.addr 7⟩ [.addr 4, .addr 5] (1 + 1 + 1 + 1) =
        (h', .ok (.addr 11)) ∧
      getOwn h' 11 .prototypeKey = some (.addr 10) ∧
      getOwn h' 10 .appliedTrait = some (.addr 3) ∧
      (∃ o2, h'.objAt 10 = some o2 ∧ o2.proto = .addr 8) ∧
      getOwn h' 8 .appliedTrait = some (.addr 2) ∧
      (∃ o1, h'.objAt 8 = some o1 ∧ o1.proto = .addr 6) :=
  claim7_builder_order.2.2 demoBuild 7 4 5 2 3 11 12
    { proto := .addr 1, props := [(.prototypeKey, .addr 6)], body := some .classCons,
      entries := [] }
    { proto := .addr 1, props := [], body := some (.bareBody 2), entries := [] }
    { proto := .addr 1, props := [], body := some (.bareBody 3), entries := [] }
    { proto := .addr 1, props := [(.wrappedTrait, .addr 2)], body := some (.userTrait 11),
      entries := [] }
    { proto := .addr 1, props := [(.wrappedTrait, .addr 3)], body := some (.userTrait 12),
      entries := [] }
    (.addr 6) 1 1 1 (by decide) (by decide) (by decide) (by decide) (by decide)
    (by decide) (by decide) (by decide) (by decide) (by decide) (by decide) (by decide)
    (by decide) (by decide) (by decide)

/-! ## Claim C8 -/

/-- C8: `HasInstance(T)` captures the pre-existing `Symbol.hasInstance`
behaviour, installs a fresh closure over it on `T` itself, and returns the
same reference `T`.  Afterwards `v instanceof T` evaluates the closure:
it returns the boolean or of the prior check's truthiness on `v` and
`expresses(v, T)`. -/
theorem claim8_hasInstance :
    (∀ (h : Heap) (t : Nat) (n : Nat) (prior : Val),
      getProp h (.addr t) .hasInstanceSym n = .ok prior →
      HasInstance h t n =
        (setProp (newFn h (.hasInstanceClosure prior t)).1 t .hasInstanceSym
          (.addr h.objs.length), .ok (.addr t)))
    ∧
    (∀ (h : Heap) (t : Nat) (ot : Obj) (prior v r : Val) (b : Bool) (g m : Nat),
      h.objAt t = some ot →
      callFn (setProp (newFn h (.hasInstanceClosure prior t)).1 t .hasInstanceSym
        (.addr h.objs.length)) prior v g =
        (setProp (newFn h (.hasInstanceClosure prior t)).1 t .hasInstanceSym
          (.addr h.objs.length), .ok r) →
      expresses (setProp (newFn h (.hasInstanceClosure prior t)).1 t .hasInstanceSym
        (.addr h.objs.length)) v (.addr t) m = .ok b →
      m ≤ g →
      instOf (setProp (newFn h (.hasInstanceClosure prior t)).1 t .hasInstanceSym
        (.addr h.objs.length)) v (.addr t) (g + 1) =
        (setProp (newFn h (.hasInstanceClosure prior t)).1 t .hasInstanceSym
          (.addr h.objs.length), .ok (.bool (truthy r || b)))) := by
  constructor
  · intro h t n prior hx
    simp only [HasInstance, hx]
    rfl
  · intro h t ot prior v r b g m hot hprior hexp hmg
    have hH1t : (newFn h (.hasInstanceClosure prior t)).1.objAt t = some ot := by
      have := objAt_alloc_old (objAt_valid hot)
        ({ proto := .addr 1, body := some (.hasInstanceClosure prior t) } : Obj)
      rw [hot] at this
      exact this
    have hHt : (setProp (newFn h (.hasInstanceClosure prior t)).1 t .hasInstanceSym
        (.addr h.objs.length)).objAt t =
        some { ot with
          props := (propSet ot.props .hasInstanceSym (.addr h.objs.length)) } :=
      objAt_setProp_self hH1t _ _
    have hsym : getProp (setProp (newFn h (.hasInstanceClosure prior t)).1 t
        .hasInstanceSym (.addr h.objs.length)) (.addr t) .hasInstanceSym (g + 1) =
        .ok (.addr h.objs.length) :=
      getProp_own hHt (findProp_propSet_self _ _ _) g
    have hHF : (setProp (newFn h (.hasInstanceClosure prior t)).1 t .hasInstanceSym
        (.addr h.objs.length)).objAt h.objs.length =
        some { proto := .addr 1, props := [], body := some (.hasInstanceClosure prior t),
               entries := [] } := by
      rw [objAt_setProp_ne _ _ _ _ (Nat.ne_of_lt (objAt_valid hot))]
      exact objAt_alloc_new h _
    have hexp' : expresses (setProp (newFn h (.hasInstanceClosure prior t)).1 t
        .hasInstanceSym (.addr h.objs.length)) v (.addr t) g = .ok b :=
      expresses_mono hexp hmg
    have hrun : callFn (setProp (newFn h (.hasInstanceClosure prior t)).1 t
        .hasInstanceSym (.addr h.objs.length)) (.addr h.objs.length) v (g + 1) =
        (setProp (newFn h (.hasInstanceClosure prior t)).1 t .hasInstanceSym
          (.addr h.objs.length), .ok (if truthy r then r else .bool b)) := by
      simp only [callFn, hHF, hasInstanceBodyRun, hprior, hexp']
      match htr : truthy r with
      | true => simp
      | false => simp
    simp only [instOf, hsym, hrun]
    match htr : truthy r with
    | true => simp [htr]
    | false => simp [htr, truthy_bool]

/-- Witness for C8 at a concrete configuration: decorating trait 2 on the
demonstration heap installs the closure at address 5 and returns 2; in the
decorated heap, `undefined instanceof 2` evaluates to false (prior builtin
check false, `expresses` false). -/
theorem claim8_witness :
    HasInstance demoHeap 2 2 =
      (setProp (newFn demoHeap (.hasInstanceClosure (.addr 0) 2)).1 2 .hasInstanceSym
        (.addr 5), .ok (.addr 2)) ∧
    instOf (setProp (newFn demoHeap (.hasInstanceClosure (.addr 0) 2)).1 2
      .hasInstanceSym (.addr 5)) .undef (.addr 2) (1 + 1) =
      (setProp (newFn demoHeap (.hasInstanceClosure (.addr 0) 2)).1 2 .hasInstanceSym
        (.addr 5), .ok (.bool false)) :=
  ⟨claim8_hasInstance.1 demoHeap 2 2 (.addr 0) (by decide),
    claim8_hasInstance.2 demoHeap 2
      { proto := .addr 1, props := [], body := some (.userTrait 7), entries := [] }
      (.addr 0) .undef (.bool false) false 1 1 (by decide) (by decide) (by decide)
      (by decide)⟩

end Mutrait
